import Mathlib

/-!
Verification of the hotkey-companion core against its specification.

The Python sources (companion.py, mcu_serial.py, moonraker_ws.py,
confighelper.py) are embedded shallowly: Python strings become `List Char`,
dicts that are only ever accessed by key become functions to `Option`,
dicts whose iteration order is observable become association lists, floats
(used only for order comparisons against exact constants) become `ℚ`, and
the threaded engine becomes a sequential state-transition system in which
the monotonic clock is an explicit parameter.

Modelled domain restrictions (noted again at the definitions concerned):
Python `float(v)` applied to numeric strings, `str(v)` applied to
non-string values, and non-ASCII text are outside the modelled input
domain.
-/

namespace HK

/-- Character strings, modelling Python `str` values. -/
abbrev Str := List Char

/-- Shorthand turning a Lean string literal into its character list. -/
def chs (s : String) : Str := s.toList

/-- Python whitespace characters recognised by `str.strip()` (ASCII part). -/
def isPySpace (c : Char) : Bool :=
  c.toNat == 32 || c.toNat == 9 || c.toNat == 10 || c.toNat == 13 ||
  c.toNat == 11 || c.toNat == 12

/-- Removes leading and trailing characters satisfying `p`, like
Python `str.strip(...)`. -/
def stripWhile (p : Char → Bool) (l : Str) : Str :=
  ((l.dropWhile p).reverse.dropWhile p).reverse

/-- Python `str.strip()` (no argument): strips surrounding whitespace. -/
def pyStrip (l : Str) : Str := stripWhile isPySpace l

/-- Python `str.strip(q)` for a single character `q`. -/
def stripChar (q : Char) (l : Str) : Str := stripWhile (fun c => c == q) l

/-- The apostrophe character, `"'"` in the Python sources. -/
def quoteS : Char := Char.ofNat 39

/-- The double-quote character, `'"'` in the Python sources. -/
def quoteD : Char := Char.ofNat 34

/-- ASCII lower-casing of one character, as Python `str.lower()` acts on
the ASCII domain. -/
def lowerChar (c : Char) : Char :=
  if 65 ≤ c.toNat ∧ c.toNat ≤ 90 then Char.ofNat (c.toNat + 32) else c

/-- ASCII upper-casing of one character, as Python `str.upper()` acts on
the ASCII domain. -/
def upperChar (c : Char) : Char :=
  if 97 ≤ c.toNat ∧ c.toNat ≤ 122 then Char.ofNat (c.toNat - 32) else c

/-- Python `str.lower()` on a whole string. -/
def strLower (s : Str) : Str := s.map lowerChar

/-- Membership in the literal `"0123456789abcdefABCDEF"` used by both
`_norm_color` implementations, expressed by ASCII ranges. -/
def isHexChar (c : Char) : Bool :=
  (48 ≤ c.toNat && c.toNat ≤ 57) ||
  (97 ≤ c.toNat && c.toNat ≤ 102) ||
  (65 ≤ c.toNat && c.toNat ≤ 70)

/-- The six-digit uppercase hex alphabet `"0123456789ABCDEF"`. -/
def isUpperHexChar (c : Char) : Bool :=
  (48 ≤ c.toNat && c.toNat ≤ 57) || (65 ≤ c.toNat && c.toNat ≤ 70)

/-- companion.py `_norm_color`: strip whitespace, drop a leading
case-insensitive `0x`, strip whitespace then apostrophes then double
quotes, and accept exactly six hex digits, upper-cased; `none` models the
Python `None` result.  The `None` input case is handled at call sites via
`Option.bind`. -/
def _norm_color (c : Str) : Option Str :=
  let s0 := pyStrip c
  let s1 := if (s0.map lowerChar).take 2 = chs "0x" then s0.drop 2 else s0
  let s2 := stripChar quoteD (stripChar quoteS (pyStrip s1))
  if s2.length == 6 && s2.all isHexChar then some (s2.map upperChar) else none

/-- mcu_serial.py `_norm_color`, string branch: the same normalisation
steps, with `none` modelling the raised `ValueError` ("InvalidColor"). -/
def mcu_norm_color (color : Str) : Option Str :=
  let s0 := pyStrip color
  let s1 := if (s0.map lowerChar).take 2 = chs "0x" then s0.drop 2 else s0
  let s2 := stripChar quoteD (stripChar quoteS (pyStrip s1))
  if s2.length != 6 || s2.any (fun c => !(isHexChar c)) then none
  else some (s2.map upperChar)

/-- Claim-side validity predicate of C3: the input, after optionally
removing one matching pair of surrounding quotes and optionally a leading
case-insensitive `0x` (either composition order), is exactly six hex
digits of arbitrary case. -/
def c3_unquote (s : Str) : List Str :=
  s :: (match s with
        | q :: rest =>
            if (q == quoteS || q == quoteD) && rest.getLast? == some q
            then [rest.dropLast] else []
        | [] => [])

/-- Claim-side helper of C3: optionally remove a leading `0x` or `0X`. -/
def c3_unhex (s : Str) : List Str :=
  s :: (match s with
        | c0 :: c1 :: r =>
            if c0 == '0' && (c1 == 'x' || c1 == 'X') then [r] else []
        | _ => [])

/-- Claim-side checker of C3 validity (both orders of unwrapping). -/
def c3_claim_valid (s : Str) : Bool :=
  (((c3_unquote s).flatMap c3_unhex) ++ ((c3_unhex s).flatMap c3_unquote)).any
    (fun core => core.length == 6 && core.all isHexChar)

/-! ### Serial line protocol (mcu_serial.py) -/

/-- Decimal digit test as Python `int(s, 10)` applies to ASCII digits. -/
def isDigitChar (c : Char) : Bool := 48 ≤ c.toNat && c.toNat ≤ 57

/-- Digit value of an ASCII digit character. -/
def digitVal (c : Char) : Nat := c.toNat - 48

/-- Accumulating body of the Python `int(s, 10)` digit parser.  An
underscore is accepted only when followed by a digit, which together with
the digit-first entry in `pyDigits` encodes the CPython rule that
underscores may appear only between digits. -/
def pyDigitsGo : Str → Nat → Option Nat
  | [], acc => some acc
  | c :: rest, acc =>
      if isDigitChar c then pyDigitsGo rest (acc * 10 + digitVal c)
      else if c == '_' then
        match rest with
        | r :: _ => if isDigitChar r then pyDigitsGo rest acc else none
        | [] => none
      else none

/-- Unsigned part of `int(s, 10)`: a nonempty digit string, with optional
single underscores between digits. -/
def pyDigits : Str → Option Nat
  | [] => none
  | c :: rest => if isDigitChar c then pyDigitsGo rest (digitVal c) else none

/-- Python `int(s, 10)` on an ASCII token: optional sign, then digits with
underscore grouping.  Non-ASCII digits are outside the modelled domain.
`none` models the raised `ValueError`. -/
def pyInt10 (s : Str) : Option Int :=
  match s with
  | [] => none
  | c :: rest =>
      if c == '+' then (pyDigits rest).map Int.ofNat
      else if c == '-' then (pyDigits rest).map (fun n => -(n : Int))
      else (pyDigits s).map Int.ofNat

/-- Python `str.split()` with no separator: split on runs of whitespace,
discarding empty tokens.  The accumulator holds the current token
reversed. -/
def pySplitGo : Str → Str → List Str
  | [], cur => if cur == [] then [] else [cur.reverse]
  | c :: rest, cur =>
      if isPySpace c then
        (if cur == [] then pySplitGo rest [] else cur.reverse :: pySplitGo rest [])
      else pySplitGo rest (c :: cur)

/-- Python `str.split()` with no separator. -/
def pySplit (l : Str) : List Str := pySplitGo l []

/-- mcu_serial.py `_parse_pressed_line`: strip, split into whitespace
tokens, require exactly two, the first case-insensitively `pressed`, the
second a base-10 integer.  `none` means the line is ignored. -/
def _parse_pressed_line (line : Str) : Option Int :=
  match pySplit (pyStrip line) with
  | [p0, p1] => if strLower p0 = chs "pressed" then pyInt10 p1 else none
  | _ => none

/-- Splits a receive buffer at newline characters: returns the complete
lines (newline removed) in order and the unterminated remainder, as
`McuConnection._process_rx_lines` carves `self._rxbuf`. -/
def splitNl : Str → List Str × Str
  | [] => ([], [])
  | c :: rest =>
      match splitNl rest with
      | (l :: ls, rem) =>
          if c == Char.ofNat 10 then ([] :: l :: ls, rem) else ((c :: l) :: ls, rem)
      | ([], rem) =>
          if c == Char.ofNat 10 then ([[]], rem) else ([], c :: rem)

/-- Post-processing of one raw line in `_process_rx_lines`: UTF-8 decode
(identity on the modelled ASCII domain), `strip()`, and removal of one
trailing carriage return. -/
def cookLine (raw : Str) : Str :=
  let line := pyStrip raw
  if line.getLast? == some (Char.ofNat 13) then line.dropLast else line

/-- mcu_serial.py `McuConnection._process_rx_lines` with the press
callback installed: returns the remaining buffer and, in order, the
`(button id, line)` pairs the callback is invoked with (the mcu name
argument is the connection's fixed `spec.name`). -/
def _process_rx_lines (buf : Str) : Str × List (Int × Str) :=
  let (lines, rem) := splitNl buf
  (rem, lines.filterMap (fun raw =>
    let line := cookLine raw
    (_parse_pressed_line line).map (fun bid => (bid, line))))

/-! ### JSON-ish values and Python coercions (companion.py helpers) -/

/-- Values stored in the mirrored Moonraker state: the JSON data model.
`null` doubles as the Python `None` that `dict.get` returns for missing
keys. -/
inductive Val where
  | num (q : ℚ)
  | str (s : Str)
  | bool (b : Bool)
  | list (l : List Val)
  | obj (fs : List (Str × Val))
  | null

/-- companion.py `_num`: Python `float(v)` guarded by try/except, on the
modelled domain (numbers and booleans; numeric strings are outside the
modelled input domain). -/
def _num : Val → Option ℚ
  | .num q => some q
  | .bool b => some (if b then 1 else 0)
  | _ => none

/-- Python truthiness `bool(v)` on the JSON data model. -/
def pyTruthy : Val → Bool
  | .num q => !(q == 0)
  | .str s => !(s == [])
  | .bool b => b
  | .list l => !l.isEmpty
  | .obj fs => !fs.isEmpty
  | .null => false

/-! ### Dictionaries

Dicts accessed only by key are partial functions; dicts whose iteration
order is observable (`busy_until`, the subscription mapping) are
association lists with Python dict-assignment semantics (`setA`: replace
in place, else append). -/

/-- A field map `field name → value`, one level of `self.state`. -/
abbrev FieldMap := Str → Option Val

/-- The mirrored state `object name → field map` of `LedEngine.state`. -/
abbrev SMap := Str → Option FieldMap

/-- The empty dict `{}`. -/
def emptyF : FieldMap := fun _ => none

/-- Point update of a partial-function dict. -/
def fset {κ α : Type} [DecidableEq κ] (k : κ) (v : Option α) (m : κ → Option α) :
    κ → Option α :=
  fun k0 => if k0 = k then v else m k0

/-- Python `dict.update(fields)` on a field map: entries applied in
order, later occurrences winning. -/
def updD (fs : List (Str × Val)) (d : FieldMap) : FieldMap :=
  fs.foldl (fun acc p => fset p.1 (some p.2) acc) d

/-- The merge step of `LedEngine.on_update`:
`self.state.setdefault(obj, {}).update(fields)` for every delta entry
whose value is a dict; other entries are ignored. -/
def mergeChanges (m : SMap) (changes : List (Str × Val)) : SMap :=
  changes.foldl
    (fun acc p =>
      match p.2 with
      | .obj fs => fset p.1 (some (updD fs ((acc p.1).getD emptyF))) acc
      | _ => acc)
    m

/-- Association-list lookup (first match), Python `d[k]` / `d.get(k)`. -/
def lookupA {κ α : Type} [DecidableEq κ] (k : κ) : List (κ × α) → Option α
  | [] => none
  | p :: t => if p.1 = k then some p.2 else lookupA k t

/-- Python dict assignment `d[k] = v` on an association list: replace the
first entry in place, else append. -/
def setA {κ α : Type} [DecidableEq κ] (k : κ) (v : α) : List (κ × α) → List (κ × α)
  | [] => [(k, v)]
  | p :: t => if p.1 = k then (k, v) :: t else p :: setA k v t

/-! ### Configuration data model (confighelper.py) -/

/-- confighelper.py `McuConfig` (the fields the engine reads). -/
structure McuConfig where
  color_all : Str
  color_busy : Str

/-- confighelper.py `ButtonConfig` (the fields the engine reads).
`led_threshold` already aliases the `led_threshould` typo at load time,
and `led_heater` aliases `led_header`; the dataclass carries only the
canonical names, so `_get_attr(b, "led_heater", "led_header")` and
`getattr(b, "led_threshould", None)` reduce to the canonical field. -/
structure ButtonConfig where
  mcu : Str
  button_id : Nat
  led_state : Str
  led_color : Option Str
  led_active_color : Option Str
  led_inactive_color : Option Str
  led_busy_color : Option Str
  led_axis : Option Str
  led_fan : Option Str
  led_output : Option Str
  led_heater : Option Str
  led_threshold : Option ℚ

/-- confighelper.py `HotkeyConfig`; `buttons` keeps the iteration order of
`cfg.buttons.values()`. -/
structure HotkeyConfig where
  mcus : List (Str × McuConfig)
  buttons : List ButtonConfig

/-- companion.py `_get_attr` on a single existing attribute: the value if
it is neither `None` nor the empty string. -/
def getAttr (o : Option Str) : Option Str :=
  match o with
  | some s => if s = [] then none else some s
  | none => none

/-- Python `A or B` on optional strings (falsy: `None` and `""`). -/
def pyOrStr (a : Option Str) (b : Option Str) : Option Str :=
  match a with
  | some s => if s = [] then b else some s
  | none => b

/-- companion.py `_get_thresh_with_source` without its log component: the
configured threshold, else the default.  `getattr(b, "led_threshould")`
always misses (the dataclass has no such field) and `_num` of a float is
the float itself. -/
def _get_thresh (b : ButtonConfig) (default : ℚ) : ℚ :=
  match b.led_threshold with
  | some v => v
  | none => default

/-- The key of a button on the device bus address space. -/
abbrev Key := Str × Nat

/-- companion.py `build_button_index`, read back at one key: the
configured buttons for `(mcu, bid)` in registration order. -/
def build_button_index (cfg : HotkeyConfig) (mcu : Str) (bid : Nat) : List ButtonConfig :=
  cfg.buttons.filter (fun b => b.mcu = mcu ∧ b.button_id = bid)

/-! ### Object name resolution and the subscription builder -/

/-- The object-name resolution table, lowercase name → canonical name. -/
abbrev Lut := Str → Option Str

/-- companion.py `_make_obj_lut`: `lut[o.lower()] = o` over the catalog in
order (later catalog entries overwrite).  The catalog is modelled as a
list of strings (non-string entries, skipped by the code, are outside the
modelled domain). -/
def _make_obj_lut (objects : List Str) : Lut :=
  objects.foldl (fun lut o => fset (strLower o) (some o) lut) (fun _ => none)

/-- companion.py `_resolve_output_object`. -/
def _resolve_output_object (lut : Lut) (out_name : Str) : Option Str :=
  let n := strLower (pyStrip out_name)
  if n = [] then none
  else
    match lut (chs "output_pin " ++ n) with
    | some v => some v
    | none => lut n

/-- companion.py `_resolve_fan_object`. -/
def _resolve_fan_object (lut : Lut) (fan_name : Str) : Option Str :=
  let n := strLower (pyStrip fan_name)
  if n = [] then none
  else
    let cands :=
      (if n = chs "fan" then [chs "fan"] else []) ++
      [chs "fan_generic " ++ n, chs "heater_fan " ++ n, chs "controller_fan " ++ n, n]
    (cands.filterMap lut).head?

/-- The fixed baseline part of `build_subscribe_objects`: the conditional
inserts for toolhead, gcode_move, z_tilt, quad_gantry_level and bed_mesh,
in source order. -/
def base_subscribe (lut : Lut) : List (Str × List Str) :=
  let sub : List (Str × List Str) := []
  let sub := if (lut (chs "toolhead")).isSome
             then setA (chs "toolhead") [chs "homed_axes", chs "position"] sub else sub
  let sub := if (lut (chs "gcode_move")).isSome
             then setA (chs "gcode_move") [chs "gcode_position"] sub else sub
  let sub := if (lut (chs "z_tilt")).isSome
             then setA (chs "z_tilt") [chs "applied"] sub else sub
  let sub := if (lut (chs "quad_gantry_level")).isSome
             then setA (chs "quad_gantry_level") [chs "applied"] sub else sub
  let sub := if (lut (chs "bed_mesh")).isSome
             then setA (chs "bed_mesh") [chs "profile_name"] sub else sub
  sub

/-- The per-button insert of `build_subscribe_objects`: the subscription
entry a non-static rule requires, if any (fan → speed, output → value,
heater → power/target/temperature with raw-name fallback). -/
def rule_required (lut : Lut) (b : ButtonConfig) : Option (Str × List Str) :=
  let st := strLower b.led_state
  if st = chs "fan" then
    (getAttr b.led_fan).bind (fun fanName =>
      (_resolve_fan_object lut fanName).map (fun obj => (obj, [chs "speed"])))
  else if st = chs "output" then
    (getAttr b.led_output).bind (fun outName =>
      (_resolve_output_object lut outName).map (fun obj => (obj, [chs "value"])))
  else if st = chs "heater" then
    (getAttr b.led_heater).map (fun heater =>
      let h := pyStrip heater
      ((lut (strLower h)).getD h, [chs "power", chs "target", chs "temperature"]))
  else none

/-- companion.py `build_subscribe_objects`: the baseline inserts followed
by one dict assignment per matching button rule. -/
def build_subscribe_objects (cfg : HotkeyConfig) (objects : List Str) : List (Str × List Str) :=
  let lut := _make_obj_lut objects
  cfg.buttons.foldl
    (fun sub b =>
      match rule_required lut b with
      | some p => setA p.1 p.2 sub
      | none => sub)
    (base_subscribe lut)

/-- Claim-side reading of the C9 baseline.  Modelled from the spec: the
"fixed baseline (position/axis objects)" of section 4.5 — the position and
axis related objects are `toolhead` and `gcode_move`. -/
def spec_baseline_objects : List Str := [chs "toolhead", chs "gcode_move"]

/-! ### The LED reconciliation engine (companion.py LedEngine)

The engine's mutable attributes become one record; its methods become
state transformers additionally returning the `bus.colorSingle` writes
they emit.  The monotonic clock is an explicit `now : ℚ` parameter. -/

/-- One `bus.colorSingle(mcu, bid, c)` call. -/
abbrev Write := Key × Str

/-- The mutable attributes of `LedEngine`. -/
structure EngineState where
  update_seq : Nat
  pending_seq : Key → Option Nat
  busy_until : List (Key × ℚ)
  last_color : Key → Option Str
  state : SMap
  obj_lut : Lut

/-- `LedEngine._set`: normalise (falling back to `"000000"`), suppress if
equal to the last written color for the address, else record and write. -/
def _set (eng : EngineState) (mcu : Str) (bid : Nat) (color : Option Str) :
    EngineState × Option Write :=
  let c := (color.bind _norm_color).getD (chs "000000")
  let key : Key := (mcu, bid)
  if eng.last_color key = some c then (eng, none)
  else ({eng with last_color := fset key (some c) eng.last_color}, some (key, c))

/-- The `base` color of `_desired_color_for_button` (dataclass default
`"FF8800"` when the mcu is unknown). -/
def _base_color (cfg : HotkeyConfig) (mcu : Str) : Option Str :=
  match lookupA mcu cfg.mcus with
  | some m => _norm_color m.color_all
  | none => some (chs "FF8800")

/-- The `base` color of `revert_after_busy` (fallback `"000000"`). -/
def _revert_base (cfg : HotkeyConfig) (mcu : Str) : Option Str :=
  match lookupA mcu cfg.mcus with
  | some m => _norm_color m.color_all
  | none => some (chs "000000")

/-- `active_col` of `_desired_color_for_button`. -/
def _active_col (cfg : HotkeyConfig) (b : ButtonConfig) : Option Str :=
  pyOrStr ((getAttr b.led_active_color).bind _norm_color) (some (chs "00FF00"))

/-- `inactive_col` of `_desired_color_for_button` (may be `None` when the
mcu base color fails normalisation). -/
def _inactive_col (cfg : HotkeyConfig) (b : ButtonConfig) : Option Str :=
  pyOrStr ((getAttr b.led_inactive_color).bind _norm_color) (_base_color cfg b.mcu)

/-- `busy_col` of `_desired_color_for_button`. -/
def _busy_col (b : ButtonConfig) : Option Str :=
  pyOrStr ((getAttr b.led_busy_color).bind _norm_color) (some (chs "FFE600"))

/-- Python `fields.get(k, default)` on a field map. -/
def pyGetD (d : FieldMap) (k : Str) (dflt : Val) : Val := (d k).getD dflt

/-- Python `state.get(obj, {})`. -/
def objGet (st : SMap) (o : Str) : FieldMap := (st o).getD emptyF

/-- `str(toolhead.get("homed_axes", "")).lower()` restricted to the
modelled domain: string reports are lowercased; the remaining JSON
scalars stringify to text without axis letters, so they contribute
none. -/
def homed_chars (v : Val) : Str :=
  match v with
  | .str s => strLower s
  | _ => []

/-- The `homed_set` of the `homed` branch: the axis letters occurring in
the homed-axes report. -/
def homed_set (toolhead : FieldMap) : Str :=
  (homed_chars (pyGetD toolhead (chs "homed_axes") (.str []))).filter
    (fun c => c == 'x' || c == 'y' || c == 'z')

/-- The live position of the `homed` branch: `gcode_move.gcode_position`
when present (not `None`), else `toolhead.position`. -/
def live_position (state : SMap) : Val :=
  let toolhead := objGet state (chs "toolhead")
  let pos := pyGetD toolhead (chs "position") .null
  let gpos := pyGetD (objGet state (chs "gcode_move")) (chs "gcode_position") .null
  match gpos with
  | .null => pos
  | g => g

/-- The `x, y, z` extraction of the `homed` branch: the first three
entries of a list of length at least 3, the `x`/`y`/`z` keys of a dict,
else `None`. -/
def pos_xyz (pos : Val) : Val × Val × Val :=
  match pos with
  | .list (a :: b :: c :: _) => (a, b, c)
  | .obj fs =>
      ((lookupA (chs "x") fs).getD .null, (lookupA (chs "y") fs).getD .null,
       (lookupA (chs "z") fs).getD .null)
  | _ => (.null, .null, .null)

/-- The float literal `-0.001` of `below0`, as the exact rational
`-1/1000` in kernel-reducible form. -/
def negThousandth : ℚ := Rat.mk' (-1) 1000

/-- The default threshold `0.5` of `_get_thresh_with_source`, as the
exact rational `1/2` in kernel-reducible form. -/
def halfThr : ℚ := Rat.mk' 1 2

/-- The `below0` helper: numeric and `< -0.001`. -/
def below0 (v : Val) : Bool :=
  match _num v with
  | some n => decide (n < negThousandth)
  | none => false

/-- `homing_now` combined with its homed-axes zeroing and the
`current = next(...)` selection: the first axis in `x, y, z` order whose
coordinate is below the threshold and which is not already homed. -/
def current_homing (homed : Str) (x y z : Val) : Option Char :=
  let hx := below0 x && !(homed.contains 'x')
  let hy := below0 y && !(homed.contains 'y')
  let hz := below0 z && !(homed.contains 'z')
  if hx then some 'x' else if hy then some 'y' else if hz then some 'z' else none

/-- The `homed` branch of `_desired_color_for_button` (it always returns
a color). -/
def _desired_homed (cfg : HotkeyConfig) (b : ButtonConfig) (state : SMap) : Option Str :=
  let toolhead := objGet state (chs "toolhead")
  let homed := homed_set toolhead
  let axis := strLower (pyStrip ((getAttr b.led_axis).getD []))
  let xyz := pos_xyz (live_position state)
  let current := current_homing homed xyz.1 xyz.2.1 xyz.2.2
  if axis = [] ∨ axis = chs "all" ∨ axis = chs "xyz" then
    if homed.contains 'x' && homed.contains 'y' && homed.contains 'z' then
      _active_col cfg b
    else if current.isSome then _busy_col b
    else _inactive_col cfg b
  else
    let ax : Char :=
      if axis = chs "x" then 'x'
      else if axis = chs "y" then 'y'
      else if axis = chs "z" then 'z'
      else 'x'
    if homed.contains ax then _active_col cfg b
    else if current == some ax then _busy_col b
    else _inactive_col cfg b

/-- The first non-`None` of `power`, `target`, `temperature` in the
`heater` branch (else `None`). -/
def heater_first_field (fields : FieldMap) : Val :=
  match fields (chs "power") with
  | some v =>
      if v matches .null then
        match fields (chs "target") with
        | some w =>
            if w matches .null then pyGetD fields (chs "temperature") .null else w
        | none => pyGetD fields (chs "temperature") .null
      else v
  | none =>
      match fields (chs "target") with
      | some w =>
          if w matches .null then pyGetD fields (chs "temperature") .null else w
      | none => pyGetD fields (chs "temperature") .null

/-- Threshold activity test `(val is not None) and (val >= thr)`. -/
def thrActive (val : Option ℚ) (thr : ℚ) : Bool :=
  match val with
  | some v => decide (thr ≤ v)
  | none => false

/-- `LedEngine._desired_color_for_button` without its log component: the
outer `none` is the Python `None` return (rule not evaluable), the inner
option is the color value passed on to `_set`. -/
def _desired_color_for_button (cfg : HotkeyConfig) (b : ButtonConfig) (lut : Lut)
    (state : SMap) : Option (Option Str) :=
  let st := strLower b.led_state
  if st = chs "output" then
    match getAttr b.led_output with
    | none => none
    | some out_name =>
        match _resolve_output_object lut out_name with
        | none => none
        | some obj =>
            let raw_val := pyGetD (objGet state obj) (chs "value") (.num 0)
            let is_active := thrActive (_num raw_val) (_get_thresh b halfThr)
            some (if is_active then _active_col cfg b else _inactive_col cfg b)
  else if st = chs "fan" then
    match getAttr b.led_fan with
    | none => none
    | some fan_name =>
        match _resolve_fan_object lut fan_name with
        | none => none
        | some obj =>
            let raw := pyGetD (objGet state obj) (chs "speed") (.num 0)
            let is_active := thrActive (_num raw) (_get_thresh b halfThr)
            some (if is_active then _active_col cfg b else _inactive_col cfg b)
  else if st = chs "heater" then
    match getAttr b.led_heater with
    | none => none
    | some heater =>
        let h := pyStrip heater
        let obj := (lut (strLower h)).getD h
        let raw := heater_first_field (objGet state obj)
        let is_active := thrActive (_num raw) (_get_thresh b halfThr)
        some (if is_active then _active_col cfg b else _inactive_col cfg b)
  else if st = chs "homed" then some (_desired_homed cfg b state)
  else if st = chs "z_tilt" then
    let applied := pyTruthy (pyGetD (objGet state (chs "z_tilt")) (chs "applied") (.bool false))
    some (if applied then _active_col cfg b else _inactive_col cfg b)
  else if st = chs "qgl" ∨ st = chs "qcl" ∨ st = chs "quad_gantry_level" then
    let applied :=
      pyTruthy (pyGetD (objGet state (chs "quad_gantry_level")) (chs "applied") (.bool false))
    some (if applied then _active_col cfg b else _inactive_col cfg b)
  else if st = chs "bed_mesh" ∨ st = chs "mesh" then
    let prof := pyGetD (objGet state (chs "bed_mesh")) (chs "profile_name") .null
    some (if pyTruthy prof then _active_col cfg b else _inactive_col cfg b)
  else none

/-- The busy color computation of `LedEngine.press_busy`. -/
def press_busy_color (cfg : HotkeyConfig) (mcu : Str) (bid : Nat) : Option Str :=
  pyOrStr
    (match (build_button_index cfg mcu bid).head? with
     | some b => (getAttr b.led_busy_color).bind _norm_color
     | none => none)
    (match lookupA mcu cfg.mcus with
     | some m => _norm_color m.color_busy
     | none => some (chs "FFE600"))

/-- `LedEngine.press_busy`: record the busy expiry and the press-time
sequence number, then write the busy color. -/
def press_busy (cfg : HotkeyConfig) (eng : EngineState) (mcu : Str) (bid : Nat)
    (hold_s : ℚ) (now : ℚ) : EngineState × Option Write :=
  let key : Key := (mcu, bid)
  let eng :=
    {eng with
      busy_until := setA key (now + hold_s) eng.busy_until,
      pending_seq := fset key (some eng.update_seq) eng.pending_seq}
  _set eng mcu bid (press_busy_color cfg mcu bid)

/-- The loop body of `LedEngine.apply_dynamic` for one configured button:
skip static rules, busy keys and stale sequence numbers, else write the
desired color and clear the pending sequence entry. -/
def apply_dynamic_step (cfg : HotkeyConfig) (seq : Nat) (lut : Lut) (stateC : SMap)
    (busyC : List (Key × ℚ)) (pendingC : Key → Option Nat) (now : ℚ)
    (acc : EngineState × List Write) (b : ButtonConfig) : EngineState × List Write :=
  let st := strLower b.led_state
  if st = [] ∨ st = chs "static" then acc
  else
    let key : Key := (b.mcu, b.button_id)
    if now < (lookupA key busyC).getD 0 then acc
    else
      let pend := pendingC key
      let stale := match pend with | some p => decide (seq ≤ p) | none => false
      if stale then acc
      else
        match _desired_color_for_button cfg b lut stateC with
        | none => acc
        | some col =>
            let ew := _set acc.1 b.mcu b.button_id col
            let eng :=
              match pend with
              | some p =>
                  if p < seq then
                    {ew.1 with pending_seq := fset key none ew.1.pending_seq}
                  else ew.1
              | none => ew.1
            (eng, acc.2 ++ ew.2.toList)

/-- `LedEngine.apply_dynamic`: the loop over all configured buttons. -/
def apply_dynamic (cfg : HotkeyConfig) (eng : EngineState) (seq : Nat) (lut : Lut)
    (stateC : SMap) (busyC : List (Key × ℚ)) (pendingC : Key → Option Nat) (now : ℚ) :
    EngineState × List Write :=
  cfg.buttons.foldl (apply_dynamic_step cfg seq lut stateC busyC pendingC now) (eng, [])

/-- `LedEngine.on_update`: increment the sequence counter, merge the delta
into the mirrored state, and re-evaluate with snapshots of the freshly
merged values (`now` is the monotonic time at which `apply_dynamic`
samples the clock; the server event time argument is unused by the
source). -/
def on_update (cfg : HotkeyConfig) (eng : EngineState) (changes : List (Str × Val))
    (now : ℚ) : EngineState × List Write :=
  let seq := eng.update_seq + 1
  let merged := mergeChanges eng.state changes
  let eng1 := {eng with update_seq := seq, state := merged}
  apply_dynamic cfg eng1 seq eng1.obj_lut merged eng1.busy_until eng1.pending_seq now

/-- `LedEngine.revert_after_busy`. -/
def revert_after_busy (cfg : HotkeyConfig) (eng : EngineState) (mcu : Str) (bid : Nat) :
    EngineState × Option Write :=
  let base := _revert_base cfg mcu
  match (build_button_index cfg mcu bid).head? with
  | none => _set eng mcu bid base
  | some b =>
      if strLower b.led_state = chs "static" then
        _set eng mcu bid (pyOrStr ((getAttr b.led_color).bind _norm_color) base)
      else
        match _desired_color_for_button cfg b eng.obj_lut eng.state with
        | some col => _set eng mcu bid col
        | none =>
            _set eng mcu bid (pyOrStr ((getAttr b.led_inactive_color).bind _norm_color) base)

/-- `LedEngine.tick`: delete the expired busy records, then revert each
expired key in insertion order. -/
def tick (cfg : HotkeyConfig) (eng : EngineState) (now : ℚ) : EngineState × List Write :=
  let expired := (eng.busy_until.filter (fun kv => decide (kv.2 ≤ now))).map Prod.fst
  let eng1 := {eng with busy_until := eng.busy_until.filter (fun kv => !decide (kv.2 ≤ now))}
  expired.foldl
    (fun acc k =>
      let ew := revert_after_busy cfg acc.1 k.1 k.2
      (ew.1, acc.2 ++ ew.2.toList))
    (eng1, [])

/-- A sequence of `stateDelta` calls, used to state C1. -/
def run_updates (cfg : HotkeyConfig) (eng : EngineState) :
    List (List (Str × Val) × ℚ) → EngineState × List Write
  | [] => (eng, [])
  | d :: rest =>
      let ew1 := on_update cfg eng d.1 d.2
      let ew2 := run_updates cfg ew1.1 rest
      (ew2.1, ew1.2 ++ ew2.2)

/-! ### Protocol client wait-handle table (moonraker_ws.py)

All operations on `MoonrakerWS._pending` run under `_pending_lock`, so the
concurrent executions of `call`, `_on_message` and `close` are exactly the
interleavings of these atomic table operations.  A wait handle (the
`(ev, box)` pair created by one `call`) is identified by a token `hid`;
the request id `rid` is the `random.randint(1000, 2_000_000_000)` draw. -/

/-- The atomic operations on the pending table: `call`'s registration,
`_on_message`'s response pop, `call`'s timeout pop, and `close`. -/
inductive PendOp where
  | register (rid hid : Nat)
  | response (rid : Nat) (isErr : Bool)
  | timeoutPop (rid : Nat)
  | close

/-- Observable wait-handle events: registration, silent overwrite of an
existing entry by a colliding registration, and the three resolution
paths. -/
inductive PendEvent where
  | registered (hid : Nat)
  | overwritten (hid : Nat)
  | resolvedResponse (hid : Nat) (isErr : Bool)
  | resolvedTimeout (hid : Nat)
  | resolvedClose (hid : Nat)
deriving DecidableEq

/-- Python `dict.pop(rid, None)`'s removal on the table. -/
def eraseA (rid : Nat) (tbl : List (Nat × Nat)) : List (Nat × Nat) :=
  tbl.filter (fun p => !(p.1 == rid))

/-- One atomic pending-table operation: `self._pending[rid] = (ev, box)`
(overwriting any colliding entry), the response pop (`pop(rid, None)`,
returning silently when absent), the timeout pop, and `close`'s
resolve-all-and-clear. -/
def pend_step (tbl : List (Nat × Nat)) : PendOp → List (Nat × Nat) × List PendEvent
  | .register rid hid =>
      (setA rid hid tbl,
       (match lookupA rid tbl with
        | some h => [.overwritten h]
        | none => []) ++ [.registered hid])
  | .response rid isErr =>
      match lookupA rid tbl with
      | some h => (eraseA rid tbl, [.resolvedResponse h isErr])
      | none => (tbl, [])
  | .timeoutPop rid =>
      match lookupA rid tbl with
      | some h => (eraseA rid tbl, [.resolvedTimeout h])
      | none => (tbl, [])
  | .close => ([], tbl.map (fun p => .resolvedClose p.2))

/-- A run of atomic pending-table operations. -/
def pend_run (tbl : List (Nat × Nat)) : List PendOp → List (Nat × Nat) × List PendEvent
  | [] => (tbl, [])
  | op :: rest =>
      let te1 := pend_step tbl op
      let te2 := pend_run te1.1 rest
      (te2.1, te1.2 ++ te2.2)

/-- Whether an event resolves the wait handle `h`. -/
def isResolution (h : Nat) : PendEvent → Bool
  | .resolvedResponse h0 _ => h0 == h
  | .resolvedTimeout h0 => h0 == h
  | .resolvedClose h0 => h0 == h
  | _ => false

/-- Freshness discipline on a run: every registration uses a request id
not currently pending and a wait handle never seen before.  Request-id
freshness is what the random draw does NOT enforce; handle freshness holds
in the source because each `call` creates a new `(ev, box)` pair. -/
def fresh_ops (tbl : List (Nat × Nat)) (used : List Nat) : List PendOp → Bool
  | [] => true
  | op :: rest =>
      match op with
      | .register rid hid =>
          (lookupA rid tbl).isNone && !(used.contains hid) &&
          fresh_ops (pend_step tbl op).1 (hid :: used) rest
      | _ => fresh_ops (pend_step tbl op).1 used rest

/-- The response payload box a `call` blocks on. -/
structure CallBox where
  err : Option Val
  res : Option Val

/-- The outcome of a completed `call`. -/
inductive CallOutcome where
  | ok (v : Val)
  | remoteError (payload : Val)

/-- The tail of `MoonrakerWS.call` once the wait event fires: an error
payload raises `RemoteError` with that payload, else the result is
returned (`box.get("result")`). -/
def call_finish (box : CallBox) : CallOutcome :=
  match box.err with
  | some e => .remoteError e
  | none => .ok (box.res.getD .null)

/-- The last value bound to a field name in an update list (used to
characterise `updD`). -/
def lookupLast (fs : List (Str × Val)) (f : Str) : Option Val :=
  match fs with
  | [] => none
  | p :: t =>
      match lookupLast t f with
      | some v => some v
      | none => if p.1 = f then some p.2 else none

/-- How many events of a run resolve the wait handle `h`. -/
def countRes (evts : List PendEvent) (h : Nat) : Nat :=
  (evts.filter (isResolution h)).length

/-! ### Concrete test fixtures (used by witnesses and counterexamples) -/

/-- A test mcu with the dataclass default colors. -/
def wMcu : McuConfig := ⟨chs "FF8800", chs "FFE600"⟩

/-- A z_tilt-rule button on `(m, 1)` with active `111111`, inactive
`222222`. -/
def wBtn : ButtonConfig :=
  ⟨chs "m", 1, chs "z_tilt", none, some (chs "111111"), some (chs "222222"),
    none, none, none, none, none, none⟩

/-- A second z_tilt-rule on the same `(m, 1)` address with different
colors. -/
def wBtn2 : ButtonConfig :=
  ⟨chs "m", 1, chs "z_tilt", none, some (chs "333333"), some (chs "444444"),
    none, none, none, none, none, none⟩

/-- A homing-axis rule for axis `z` on `(m, 2)`: active `111111`,
inactive `222222`, busy `FF0000`. -/
def wBtnH : ButtonConfig :=
  ⟨chs "m", 2, chs "homed", none, some (chs "111111"), some (chs "222222"),
    some (chs "FF0000"), some (chs "z"), none, none, none, none⟩

/-- A one-button test configuration (addresses unique). -/
def wCfg : HotkeyConfig := ⟨[(chs "m", wMcu)], [wBtn]⟩

/-- A configuration with two rules sharing the address `(m, 1)`. -/
def wCfgDup : HotkeyConfig := ⟨[(chs "m", wMcu)], [wBtn, wBtn2]⟩

/-- The homing-rule test configuration. -/
def wCfgH : HotkeyConfig := ⟨[(chs "m", wMcu)], [wBtnH]⟩

/-- A configuration with no buttons. -/
def wCfgEmpty : HotkeyConfig := ⟨[], []⟩

/-- The freshly constructed engine state. -/
def wEng0 : EngineState := ⟨0, fun _ => none, [], fun _ => none, fun _ => none, fun _ => none⟩

/-- An engine state with a pending sequence entry `5` for `(m, 1)`. -/
def wEngP : EngineState :=
  ⟨0, fun k => if k = (chs "m", 1) then some 5 else none, [], fun _ => none,
    fun _ => none, fun _ => none⟩

/-- An engine state whose last written color for `(m, 1)` is `000000`. -/
def wEngBlack : EngineState :=
  ⟨0, fun _ => none, [], fun k => if k = (chs "m", 1) then some (chs "000000") else none,
    fun _ => none, fun _ => none⟩

/-- A state delta reporting `z_tilt.applied = false`. -/
def wDelta : List (Str × Val) := [(chs "z_tilt", .obj [(chs "applied", .bool false)])]

/-- A mirrored state for the homing scenarios: homed axes `ha`, gcode
position `(px, py, pz)`. -/
def wStateH (ha : String) (px py pz : ℚ) : SMap :=
  fun o =>
    if o = chs "toolhead" then
      some (fun k => if k = chs "homed_axes" then some (.str (chs ha)) else none)
    else if o = chs "gcode_move" then
      some (fun k =>
        if k = chs "gcode_position" then some (.list [.num px, .num py, .num pz]) else none)
    else none

/-! ### Basic lemmas about the dictionary models -/

theorem fset_same {κ α : Type} [DecidableEq κ] (k : κ) (v : Option α) (m : κ → Option α) :
    fset k v m k = v := by
  simp [fset]

theorem fset_other {κ α : Type} [DecidableEq κ] {k k0 : κ} (v : Option α) (m : κ → Option α)
    (h : k0 ≠ k) : fset k v m k0 = m k0 := by
  simp [fset, h]

theorem lookupA_setA_same {κ α : Type} [DecidableEq κ] (k : κ) (v : α) (l : List (κ × α)) :
    lookupA k (setA k v l) = some v := by
  induction l with
  | nil => simp [setA, lookupA]
  | cons p t ih =>
      by_cases h : p.1 = k
      · simp [setA, lookupA, h]
      · simp [setA, lookupA, h, ih]

theorem lookupA_setA_other {κ α : Type} [DecidableEq κ] {k k0 : κ} (v : α) (l : List (κ × α))
    (h : k0 ≠ k) : lookupA k0 (setA k v l) = lookupA k0 l := by
  induction l with
  | nil => simp [setA, lookupA, Ne.symm h]
  | cons p t ih =>
      by_cases hp : p.1 = k
      · simp [setA, lookupA, hp, Ne.symm h]
      · simp [setA, lookupA, hp, ih]

theorem mem_setA {κ α : Type} [DecidableEq κ] {k : κ} {v : α} {l : List (κ × α)}
    {p : κ × α} (h : p ∈ setA k v l) : p = (k, v) ∨ p ∈ l := by
  induction l with
  | nil => simpa [setA] using h
  | cons q t ih =>
      by_cases hq : q.1 = k
      · rcases (by simpa [setA, hq] using h) with h1 | h1
        · exact Or.inl h1
        · exact Or.inr (List.mem_cons_of_mem _ h1)
      · rcases (by simpa [setA, hq] using h) with h1 | h1
        · exact Or.inr (by simp [h1])
        · rcases ih h1 with h2 | h2
          · exact Or.inl h2
          · exact Or.inr (List.mem_cons_of_mem _ h2)

/-! ### Lemmas about `_set` -/

theorem _set_write_key {eng : EngineState} {mcu : Str} {bid : Nat} {color : Option Str}
    {w : Write} (h : (_set eng mcu bid color).2 = some w) :
    w.1 = (mcu, bid) ∧ w.2 = (color.bind _norm_color).getD (chs "000000") := by
  unfold _set at h
  dsimp only at h
  split at h
  · simp at h
  · simp at h
    simp [h.symm]

theorem _set_mem_toList {eng : EngineState} {mcu : Str} {bid : Nat} {color : Option Str}
    {w : Write} (h : w ∈ (_set eng mcu bid color).2.toList) : w.1 = (mcu, bid) := by
  cases hw : (_set eng mcu bid color).2 with
  | none => rw [hw] at h; simp at h
  | some w0 =>
      rw [hw] at h
      simp at h
      exact h ▸ (_set_write_key hw).1

theorem _set_frame {eng : EngineState} {mcu : Str} {bid : Nat} {color : Option Str} :
    (_set eng mcu bid color).1.update_seq = eng.update_seq ∧
    (_set eng mcu bid color).1.pending_seq = eng.pending_seq ∧
    (_set eng mcu bid color).1.busy_until = eng.busy_until ∧
    (_set eng mcu bid color).1.state = eng.state ∧
    (_set eng mcu bid color).1.obj_lut = eng.obj_lut := by
  unfold _set
  dsimp only
  split <;> simp

theorem _set_last_color_other {eng : EngineState} {mcu : Str} {bid : Nat}
    {color : Option Str} {k : Key} (h : k ≠ (mcu, bid)) :
    (_set eng mcu bid color).1.last_color k = eng.last_color k := by
  unfold _set
  dsimp only
  split
  · rfl
  · exact fset_other _ _ h

theorem _set_suppress {eng : EngineState} {mcu : Str} {bid : Nat} {color : Option Str}
    (h : eng.last_color (mcu, bid) = some ((color.bind _norm_color).getD (chs "000000"))) :
    _set eng mcu bid color = (eng, none) := by
  unfold _set
  dsimp only
  simp [h]

theorem _set_write_last {eng : EngineState} {mcu : Str} {bid : Nat} {color : Option Str}
    {w : Write} (h : (_set eng mcu bid color).2 = some w) :
    (_set eng mcu bid color).1.last_color (mcu, bid) = some w.2 := by
  by_cases hc :
      eng.last_color (mcu, bid) = some ((color.bind _norm_color).getD (chs "000000"))
  · rw [_set_suppress hc] at h
    simp at h
  · have e1 : _set eng mcu bid color =
        ({eng with
            last_color :=
              fset (mcu, bid) (some ((color.bind _norm_color).getD (chs "000000")))
                eng.last_color},
          some ((mcu, bid), (color.bind _norm_color).getD (chs "000000"))) := by
      simp [_set, hc]
    rw [e1] at h ⊢
    simp at h
    simp [h.symm, fset_same]

/-! ### Lemmas about `apply_dynamic_step` -/

theorem step_skip_busy {cfg : HotkeyConfig} {seq : Nat} {lut : Lut} {stateC : SMap}
    {busyC : List (Key × ℚ)} {pendingC : Key → Option Nat} {now : ℚ}
    {acc : EngineState × List Write} {b : ButtonConfig}
    (h : now < (lookupA (b.mcu, b.button_id) busyC).getD 0) :
    apply_dynamic_step cfg seq lut stateC busyC pendingC now acc b = acc := by
  unfold apply_dynamic_step
  dsimp only
  split
  · rfl
  · simp [h]

theorem step_skip_pend {cfg : HotkeyConfig} {seq : Nat} {lut : Lut} {stateC : SMap}
    {busyC : List (Key × ℚ)} {pendingC : Key → Option Nat} {now : ℚ}
    {acc : EngineState × List Write} {b : ButtonConfig} {p : Nat}
    (hp : pendingC (b.mcu, b.button_id) = some p) (hle : seq ≤ p) :
    apply_dynamic_step cfg seq lut stateC busyC pendingC now acc b = acc := by
  unfold apply_dynamic_step
  dsimp only
  split
  · rfl
  · split
    · rfl
    · simp [hp, hle]

theorem step_writes_mem {cfg : HotkeyConfig} {seq : Nat} {lut : Lut} {stateC : SMap}
    {busyC : List (Key × ℚ)} {pendingC : Key → Option Nat} {now : ℚ}
    {acc : EngineState × List Write} {b : ButtonConfig} {w : Write}
    (h : w ∈ (apply_dynamic_step cfg seq lut stateC busyC pendingC now acc b).2) :
    w ∈ acc.2 ∨ w.1 = (b.mcu, b.button_id) := by
  unfold apply_dynamic_step at h
  dsimp only at h
  split at h
  · exact Or.inl h
  · split at h
    · exact Or.inl h
    · split at h
      · exact Or.inl h
      · split at h
        · exact Or.inl h
        · rcases List.mem_append.mp h with h1 | h1
          · exact Or.inl h1
          · exact Or.inr (_set_mem_toList h1)

theorem step_frame_state {cfg : HotkeyConfig} {seq : Nat} {lut : Lut} {stateC : SMap}
    {busyC : List (Key × ℚ)} {pendingC : Key → Option Nat} {now : ℚ}
    {acc : EngineState × List Write} {b : ButtonConfig} :
    (apply_dynamic_step cfg seq lut stateC busyC pendingC now acc b).1.update_seq =
      acc.1.update_seq ∧
    (apply_dynamic_step cfg seq lut stateC busyC pendingC now acc b).1.busy_until =
      acc.1.busy_until ∧
    (apply_dynamic_step cfg seq lut stateC busyC pendingC now acc b).1.state =
      acc.1.state ∧
    (apply_dynamic_step cfg seq lut stateC busyC pendingC now acc b).1.obj_lut =
      acc.1.obj_lut := by
  unfold apply_dynamic_step
  dsimp only
  split
  · simp
  · split
    · simp
    · split
      · simp
      · cases hd : _desired_color_for_button cfg b lut stateC with
        | none => simp [hd]
        | some col =>
            simp only [hd]
            rcases @_set_frame acc.1 b.mcu b.button_id col with ⟨f1, _, f3, f4, f5⟩
            cases hp : pendingC (b.mcu, b.button_id) with
            | none => exact ⟨f1, f3, f4, f5⟩
            | some p =>
                by_cases hlt : p < seq
                · simp only [if_pos hlt]
                  exact ⟨f1, f3, f4, f5⟩
                · simp only [if_neg hlt]
                  exact ⟨f1, f3, f4, f5⟩

/-! ### Fold-level lemmas about `apply_dynamic` -/

theorem fold_frame_state (cfg : HotkeyConfig) (seq : Nat) (lut : Lut) (stateC : SMap)
    (busyC : List (Key × ℚ)) (pendingC : Key → Option Nat) (now : ℚ) :
    ∀ (bs : List ButtonConfig) (acc : EngineState × List Write),
    (bs.foldl (apply_dynamic_step cfg seq lut stateC busyC pendingC now) acc).1.update_seq =
      acc.1.update_seq ∧
    (bs.foldl (apply_dynamic_step cfg seq lut stateC busyC pendingC now) acc).1.busy_until =
      acc.1.busy_until ∧
    (bs.foldl (apply_dynamic_step cfg seq lut stateC busyC pendingC now) acc).1.state =
      acc.1.state ∧
    (bs.foldl (apply_dynamic_step cfg seq lut stateC busyC pendingC now) acc).1.obj_lut =
      acc.1.obj_lut := by
  intro bs
  induction bs with
  | nil => intro acc; simp
  | cons b t ih =>
      intro acc
      rcases ih (apply_dynamic_step cfg seq lut stateC busyC pendingC now acc b) with
        ⟨g1, g2, g3, g4⟩
      rcases @step_frame_state cfg seq lut stateC busyC pendingC now acc b with
        ⟨h1, h2, h3, h4⟩
      simp only [List.foldl_cons]
      exact ⟨g1.trans h1, g2.trans h2, g3.trans h3, g4.trans h4⟩

theorem fold_writes_skip {cfg : HotkeyConfig} {seq : Nat} {lut : Lut} {stateC : SMap}
    {busyC : List (Key × ℚ)} {pendingC : Key → Option Nat} {now : ℚ} {k : Key} :
    ∀ (bs : List ButtonConfig) (acc : EngineState × List Write),
    (∀ (acc0 : EngineState × List Write) (b : ButtonConfig), b ∈ bs →
      (b.mcu, b.button_id) = k →
      apply_dynamic_step cfg seq lut stateC busyC pendingC now acc0 b = acc0) →
    ∀ w ∈ (bs.foldl (apply_dynamic_step cfg seq lut stateC busyC pendingC now) acc).2,
      w ∈ acc.2 ∨ w.1 ≠ k := by
  intro bs
  induction bs with
  | nil => intro acc _ w hw; exact Or.inl hw
  | cons b t ih =>
      intro acc H w hw
      simp only [List.foldl_cons] at hw
      by_cases hk : (b.mcu, b.button_id) = k
      · rw [H acc b (List.mem_cons_self b t) hk] at hw
        exact ih acc (fun a b0 hb0 => H a b0 (List.mem_cons_of_mem _ hb0)) w hw
      · rcases ih (apply_dynamic_step cfg seq lut stateC busyC pendingC now acc b)
          (fun a b0 hb0 => H a b0 (List.mem_cons_of_mem _ hb0)) w hw with h1 | h1
        · rcases step_writes_mem h1 with h2 | h2
          · exact Or.inl h2
          · exact Or.inr (by rw [h2]; exact hk)
        · exact Or.inr h1

/-! ### Facts about `on_update` -/

theorem on_update_update_seq (cfg : HotkeyConfig) (eng : EngineState)
    (changes : List (Str × Val)) (now : ℚ) :
    (on_update cfg eng changes now).1.update_seq = eng.update_seq + 1 := by
  unfold on_update apply_dynamic
  exact (fold_frame_state _ _ _ _ _ _ _ _ _).1

theorem on_update_busy_until (cfg : HotkeyConfig) (eng : EngineState)
    (changes : List (Str × Val)) (now : ℚ) :
    (on_update cfg eng changes now).1.busy_until = eng.busy_until := by
  unfold on_update apply_dynamic
  exact (fold_frame_state _ _ _ _ _ _ _ _ _).2.1

theorem on_update_state (cfg : HotkeyConfig) (eng : EngineState)
    (changes : List (Str × Val)) (now : ℚ) :
    (on_update cfg eng changes now).1.state = mergeChanges eng.state changes := by
  unfold on_update apply_dynamic
  exact (fold_frame_state _ _ _ _ _ _ _ _ _).2.2.1

theorem on_update_obj_lut (cfg : HotkeyConfig) (eng : EngineState)
    (changes : List (Str × Val)) (now : ℚ) :
    (on_update cfg eng changes now).1.obj_lut = eng.obj_lut := by
  unfold on_update apply_dynamic
  exact (fold_frame_state _ _ _ _ _ _ _ _ _).2.2.2

theorem on_update_no_busy_write {cfg : HotkeyConfig} {eng : EngineState}
    {changes : List (Str × Val)} {now : ℚ} {k : Key}
    (h : now < (lookupA k eng.busy_until).getD 0) :
    ∀ w ∈ (on_update cfg eng changes now).2, w.1 ≠ k := by
  intro w hw
  unfold on_update apply_dynamic at hw
  rcases fold_writes_skip cfg.buttons _
      (fun acc0 b _ hbk => step_skip_busy (by rw [hbk]; exact h)) w hw with h1 | h1
  · simp at h1
  · exact h1

theorem on_update_no_stale_write {cfg : HotkeyConfig} {eng : EngineState}
    {changes : List (Str × Val)} {now : ℚ} {k : Key} {p : Nat}
    (hp : eng.pending_seq k = some p) (hle : eng.update_seq + 1 ≤ p) :
    ∀ w ∈ (on_update cfg eng changes now).2, w.1 ≠ k := by
  intro w hw
  unfold on_update apply_dynamic at hw
  rcases fold_writes_skip cfg.buttons _
      (fun acc0 b _ hbk => step_skip_pend (by rw [hbk]; exact hp) hle) w hw with h1 | h1
  · simp at h1
  · exact h1

/-! ### Facts about `press_busy` and `run_updates` -/

theorem press_busy_busy_until (cfg : HotkeyConfig) (eng : EngineState) (mcu : Str)
    (bid : Nat) (hold_s now : ℚ) :
    lookupA (mcu, bid) (press_busy cfg eng mcu bid hold_s now).1.busy_until =
      some (now + hold_s) := by
  unfold press_busy
  dsimp only
  rw [_set_frame.2.2.1]
  exact lookupA_setA_same _ _ _

theorem run_updates_no_key_write (cfg : HotkeyConfig) (k : Key) (u : ℚ) :
    ∀ (deltas : List (List (Str × Val) × ℚ)) (eng : EngineState),
    lookupA k eng.busy_until = some u →
    (∀ d ∈ deltas, d.2 < u) →
    ∀ w ∈ (run_updates cfg eng deltas).2, w.1 ≠ k := by
  intro deltas
  induction deltas with
  | nil => intro eng _ _ w hw; simp [run_updates] at hw
  | cons d rest ih =>
      intro eng hb ht w hw
      unfold run_updates at hw
      dsimp only at hw
      rcases List.mem_append.mp hw with h1 | h1
      · exact on_update_no_busy_write
          (by rw [hb]; exact ht d (List.mem_cons_self d rest)) w h1
      · exact ih (on_update cfg eng d.1 d.2).1
          (by rw [on_update_busy_until]; exact hb)
          (fun d0 hd0 => ht d0 (List.mem_cons_of_mem _ hd0)) w h1

theorem press_busy_write {cfg : HotkeyConfig} {eng : EngineState} {mcu : Str} {bid : Nat}
    {hold_s now : ℚ} {w : Write} (h : (press_busy cfg eng mcu bid hold_s now).2 = some w) :
    w = ((mcu, bid), ((press_busy_color cfg mcu bid).bind _norm_color).getD (chs "000000")) := by
  unfold press_busy at h
  dsimp only at h
  rcases _set_write_key h with ⟨h1, h2⟩
  exact Prod.ext h1 h2

/-! ### Claim C1 -/

/-- C1: for any `press(mcu, bid)` followed, within the hold window, by any
number of `stateDelta` calls, no state-derived color write occurs for
`(mcu, bid)`: every write the delta sequence emits is for a different
address, and the only write the press itself emits carries the busy
color. -/
theorem C1_busy_hold_invariant (cfg : HotkeyConfig) (eng : EngineState) (mcu : Str)
    (bid : Nat) (hold_s now0 : ℚ) (deltas : List (List (Str × Val) × ℚ))
    (hwin : ∀ d ∈ deltas, d.2 < now0 + hold_s) :
    (∀ w ∈ (run_updates cfg (press_busy cfg eng mcu bid hold_s now0).1 deltas).2,
        w.1 ≠ (mcu, bid)) ∧
    (∀ w, (press_busy cfg eng mcu bid hold_s now0).2 = some w →
        w = ((mcu, bid),
          ((press_busy_color cfg mcu bid).bind _norm_color).getD (chs "000000"))) := by
  constructor
  · exact run_updates_no_key_write cfg (mcu, bid) (now0 + hold_s) deltas _
      (press_busy_busy_until cfg eng mcu bid hold_s now0) hwin
  · intro w h
    exact press_busy_write h

/-- Witness for C1: a concrete press on `(m, 1)` at time 0 with hold 1,
followed by a delta at time 1/2. -/
theorem C1_witness :
    (∀ d ∈ [(wDelta, (1 : ℚ) / 2)], d.2 < 0 + 1) ∧
    ((∀ w ∈ (run_updates wCfg (press_busy wCfg wEng0 (chs "m") 1 1 0).1
          [(wDelta, (1 : ℚ) / 2)]).2, w.1 ≠ (chs "m", 1)) ∧
      (∀ w, (press_busy wCfg wEng0 (chs "m") 1 1 0).2 = some w →
        w = ((chs "m", 1),
          ((press_busy_color wCfg (chs "m") 1).bind _norm_color).getD (chs "000000")))) := by
  have hwin : ∀ d ∈ [(wDelta, (1 : ℚ) / 2)], d.2 < 0 + 1 := by
    intro d hd
    rw [List.mem_singleton] at hd
    subst hd
    norm_num
  exact ⟨hwin, C1_busy_hold_invariant wCfg wEng0 (chs "m") 1 1 0 [(wDelta, (1 : ℚ) / 2)] hwin⟩

/-! ### Claim C2 -/

/-- C2: `stateDelta` increments the update-sequence counter (to `seq`),
merges the delta into the mirrored state, and during re-evaluation skips
every key whose captured pending sequence is `≥ seq`; equivalently, every
key it writes has either no pending record or one with sequence strictly
below `seq`, so a delta whose sequence ties the press-time sequence never
overwrites the busy color. -/
theorem C2_stale_seq_guard (cfg : HotkeyConfig) (eng : EngineState)
    (changes : List (Str × Val)) (now : ℚ) :
    (on_update cfg eng changes now).1.update_seq = eng.update_seq + 1 ∧
    (on_update cfg eng changes now).1.state = mergeChanges eng.state changes ∧
    (∀ k p, eng.pending_seq k = some p → eng.update_seq + 1 ≤ p →
      ∀ w ∈ (on_update cfg eng changes now).2, w.1 ≠ k) ∧
    (∀ w ∈ (on_update cfg eng changes now).2, ∀ p, eng.pending_seq w.1 = some p →
      p < eng.update_seq + 1) := by
  refine ⟨on_update_update_seq cfg eng changes now, on_update_state cfg eng changes now,
    fun k p hp hle => on_update_no_stale_write hp hle, ?_⟩
  intro w hw p hp
  by_contra hlt
  exact on_update_no_stale_write hp (Nat.le_of_not_lt hlt) w hw rfl

/-- Witness for C2: concrete delta on an engine whose `(m, 1)` key has a
captured sequence 5 ≥ the incremented counter 1. -/
theorem C2_witness :
    (on_update wCfg wEngP wDelta 0).1.update_seq = wEngP.update_seq + 1 ∧
    (on_update wCfg wEngP wDelta 0).1.state = mergeChanges wEngP.state wDelta ∧
    (∀ k p, wEngP.pending_seq k = some p → wEngP.update_seq + 1 ≤ p →
      ∀ w ∈ (on_update wCfg wEngP wDelta 0).2, w.1 ≠ k) ∧
    (∀ w ∈ (on_update wCfg wEngP wDelta 0).2, ∀ p, wEngP.pending_seq w.1 = some p →
      p < wEngP.update_seq + 1) :=
  C2_stale_seq_guard wCfg wEngP wDelta 0

/-! ### Character-level lemmas for color normalisation -/

theorem charToNat_ofNat {n : Nat} (h : n < 55296) : (Char.ofNat n).toNat = n := by
  unfold Char.ofNat
  rw [dif_pos (Or.inl h)]
  simp [Char.ofNatAux, Char.toNat, UInt32.toNat, UInt32.ofNatCore]

theorem char_ne_of_toNat_ne {c d : Char} (h : c.toNat ≠ d.toNat) : c ≠ d :=
  fun he => h (by rw [he])

theorem upperChar_toNat (c : Char) :
    (upperChar c).toNat =
      if 97 ≤ c.toNat ∧ c.toNat ≤ 122 then c.toNat - 32 else c.toNat := by
  unfold upperChar
  split
  · next hc => exact charToNat_ofNat (by omega)
  · rfl

theorem lowerChar_toNat (c : Char) :
    (lowerChar c).toNat =
      if 65 ≤ c.toNat ∧ c.toNat ≤ 90 then c.toNat + 32 else c.toNat := by
  unfold lowerChar
  split
  · next hc => exact charToNat_ofNat (by omega)
  · rfl

theorem isHexChar_upperChar {c : Char} (h : isHexChar c = true) :
    isUpperHexChar (upperChar c) = true := by
  simp only [isHexChar, Bool.or_eq_true, Bool.and_eq_true, decide_eq_true_eq] at h
  simp only [isUpperHexChar, Bool.or_eq_true, Bool.and_eq_true, decide_eq_true_eq,
    upperChar_toNat]
  split <;> omega

theorem upperHex_isHex {c : Char} (h : isUpperHexChar c = true) : isHexChar c = true := by
  simp only [isUpperHexChar, Bool.or_eq_true, Bool.and_eq_true, decide_eq_true_eq] at h
  simp only [isHexChar, Bool.or_eq_true, Bool.and_eq_true, decide_eq_true_eq]
  omega

theorem upperHex_fix {c : Char} (h : isUpperHexChar c = true) : upperChar c = c := by
  simp only [isUpperHexChar, Bool.or_eq_true, Bool.and_eq_true, decide_eq_true_eq] at h
  unfold upperChar
  rw [if_neg (by omega)]

theorem upperHex_not_space {c : Char} (h : isUpperHexChar c = true) :
    isPySpace c = false := by
  simp only [isUpperHexChar, Bool.or_eq_true, Bool.and_eq_true, decide_eq_true_eq] at h
  simp only [isPySpace, Bool.or_eq_false_iff, beq_eq_false_iff_ne]
  omega

theorem upperHex_ne_quoteS {c : Char} (h : isUpperHexChar c = true) : (c == quoteS) = false := by
  simp only [isUpperHexChar, Bool.or_eq_true, Bool.and_eq_true, decide_eq_true_eq] at h
  have : c.toNat ≠ (quoteS).toNat := by
    have hq : (quoteS).toNat = 39 := charToNat_ofNat (by omega)
    omega
  simp [char_ne_of_toNat_ne this]

theorem upperHex_ne_quoteD {c : Char} (h : isUpperHexChar c = true) : (c == quoteD) = false := by
  simp only [isUpperHexChar, Bool.or_eq_true, Bool.and_eq_true, decide_eq_true_eq] at h
  have : c.toNat ≠ (quoteD).toNat := by
    have hq : (quoteD).toNat = 34 := charToNat_ofNat (by omega)
    omega
  simp [char_ne_of_toNat_ne this]

theorem upperHex_lower_ne_x {c : Char} (h : isUpperHexChar c = true) :
    lowerChar c ≠ 'x' := by
  simp only [isUpperHexChar, Bool.or_eq_true, Bool.and_eq_true, decide_eq_true_eq] at h
  apply char_ne_of_toNat_ne
  rw [lowerChar_toNat]
  have hx : ('x').toNat = 120 := by decide
  rw [hx]
  split <;> omega

/-! ### String-level lemmas for color normalisation -/

theorem dropWhile_all_false {p : Char → Bool} {l : Str} (h : ∀ c ∈ l, p c = false) :
    l.dropWhile p = l := by
  cases l with
  | nil => rfl
  | cons c t => simp [List.dropWhile, h c (List.mem_cons_self c t)]

theorem stripWhile_all_false {p : Char → Bool} {l : Str} (h : ∀ c ∈ l, p c = false) :
    stripWhile p l = l := by
  unfold stripWhile
  rw [dropWhile_all_false h,
    dropWhile_all_false (fun c hc => h c (List.mem_reverse.mp hc)), List.reverse_reverse]

theorem map_id_of_mem {α : Type} {f : α → α} :
    ∀ (l : List α), (∀ c ∈ l, f c = c) → l.map f = l
  | [], _ => rfl
  | c :: t, h => by
      simp only [List.map_cons, h c (List.mem_cons_self c t),
        map_id_of_mem t (fun x hx => h x (List.mem_cons_of_mem _ hx))]

theorem norm_accept_output {t r : Str}
    (h : (if (t.length == 6 && t.all isHexChar) = true then some (t.map upperChar)
          else none) = some r) :
    r.length = 6 ∧ r.all isUpperHexChar = true := by
  split at h
  · next hc =>
      simp only [Bool.and_eq_true, beq_iff_eq] at hc
      simp only [Option.some.injEq] at h
      subst h
      constructor
      · simpa using hc.1
      · rw [List.all_eq_true]
        intro x hx
        rcases List.mem_map.mp hx with ⟨c, hcmem, hcx⟩
        exact hcx ▸ isHexChar_upperChar ((List.all_eq_true.mp hc.2) c hcmem)
  · exact absurd h (by simp)

theorem _norm_color_output {s r : Str} (h : _norm_color s = some r) :
    r.length = 6 ∧ r.all isUpperHexChar = true := by
  unfold _norm_color at h
  dsimp only at h
  split at h
  all_goals exact norm_accept_output h

theorem canonical_fixed {r : Str} (hlen : r.length = 6)
    (hall : r.all isUpperHexChar = true) : _norm_color r = some r := by
  have hmem := List.all_eq_true.mp hall
  have hstrip : pyStrip r = r :=
    stripWhile_all_false (fun c hc => upperHex_not_space (hmem c hc))
  have hq1 : stripChar quoteS r = r :=
    stripWhile_all_false (fun c hc => upperHex_ne_quoteS (hmem c hc))
  have hq2 : stripChar quoteD r = r :=
    stripWhile_all_false (fun c hc => upperHex_ne_quoteD (hmem c hc))
  have hpre : ¬((r.map lowerChar).take 2 = chs "0x") := by
    intro hp
    cases r with
    | nil => simp at hlen
    | cons c0 t =>
        cases t with
        | nil => simp at hlen
        | cons c1 t2 =>
            simp only [List.map_cons, List.take, chs] at hp
            simp at hp
            exact upperHex_lower_ne_x (hmem c1 (by simp)) hp.2
  have hfix : r.map upperChar = r := map_id_of_mem r (fun c hc => upperHex_fix (hmem c hc))
  have hhex : r.all isHexChar = true := by
    rw [List.all_eq_true]
    exact fun c hc => upperHex_isHex (hmem c hc)
  unfold _norm_color
  dsimp only
  rw [hstrip, if_neg hpre, hstrip, hq1, hq2]
  rw [if_pos (by simp [hlen, hhex])]
  rw [hfix]

theorem mcu_norm_color_agrees (s : Str) : mcu_norm_color s = _norm_color s := by
  unfold mcu_norm_color _norm_color
  dsimp only
  generalize (stripChar quoteD (stripChar quoteS (pyStrip
    (if (List.map lowerChar (pyStrip s)).take 2 = chs "0x" then (pyStrip s).drop 2
     else pyStrip s)))) = t
  by_cases h6 : t.length = 6
  · by_cases hall : t.all isHexChar = true
    · have hany : (t.any fun c => !isHexChar c) = false := by
        rw [Bool.eq_false_iff]
        intro hc
        rcases List.any_eq_true.mp hc with ⟨x, hx, hpx⟩
        rw [(List.all_eq_true.mp hall) x hx] at hpx
        simp at hpx
      simp [h6, hall, hany]
    · have hany : (t.any fun c => !isHexChar c) = true := by
        rcases List.all_eq_false.mp (Bool.eq_false_iff.mpr hall) with ⟨x, hx, hpx⟩
        exact List.any_eq_true.mpr ⟨x, hx, by simp [hpx]⟩
      simp [h6, hall, hany]
  · simp [h6]

/-! ### Claim C3 -/

/-- C3 counterexample: the quoted `0x`-prefixed value `'0xABCDEF'` is
valid under the claim (quotes and `0x` both allowed) yet normalisation
rejects it, because the code strips quotes only after the `0x` check; and
`" ABCDEF"` is invalid under the claim (whitespace is not among the
allowances) yet normalisation accepts it. -/
theorem C3_counterexample :
    c3_claim_valid (quoteS :: (chs "0xABCDEF" ++ [quoteS])) = true ∧
    _norm_color (quoteS :: (chs "0xABCDEF" ++ [quoteS])) = none ∧
    c3_claim_valid (chs " ABCDEF") = false ∧
    _norm_color (chs " ABCDEF") = some (chs "ABCDEF") :=
  ⟨by decide, by decide, by decide, by decide⟩

/-- C3 (amended): normalisation strips surrounding whitespace, removes a
leading case-insensitive `0x` before any quote handling, strips
surrounding apostrophes then double quotes, and accepts exactly six hex
digits; every accepted value is six uppercase hex digits, normalisation
is idempotent on its outputs, and the serial-layer implementation agrees
with the engine-layer one (raising exactly where the latter returns
`None`). -/
theorem C3_norm_color_amended (s r : Str) (h : _norm_color s = some r) :
    (r.length = 6 ∧ r.all isUpperHexChar = true) ∧
    _norm_color r = some r ∧
    mcu_norm_color s = _norm_color s ∧
    mcu_norm_color r = _norm_color r := by
  rcases _norm_color_output h with ⟨hlen, hall⟩
  exact ⟨⟨hlen, hall⟩, canonical_fixed hlen hall, mcu_norm_color_agrees s,
    mcu_norm_color_agrees r⟩

/-- Witness for C3: `0xff8800` normalises to `FF8800`. -/
theorem C3_witness :
    _norm_color (chs "0xff8800") = some (chs "FF8800") ∧
    ((chs "FF8800").length = 6 ∧ (chs "FF8800").all isUpperHexChar = true) ∧
    _norm_color (chs "FF8800") = some (chs "FF8800") ∧
    mcu_norm_color (chs "0xff8800") = _norm_color (chs "0xff8800") ∧
    mcu_norm_color (chs "FF8800") = _norm_color (chs "FF8800") :=
  ⟨by decide, C3_norm_color_amended (chs "0xff8800") (chs "FF8800") (by decide)⟩

/-! ### Claim C10 -/

/-- C10 counterexample: when the last sent color for the address is
already `000000`, an invalid color argument is coerced to `000000` but
NOT written (write suppression), contradicting the claim that it is
"coerced to 000000 and written". -/
theorem C10_counterexample :
    _norm_color (chs "zzz") = none ∧
    (_set wEngBlack (chs "m") 1 (some (chs "zzz"))).2 = none ∧
    (_set wEngBlack (chs "m") 1 (some (chs "zzz"))).1.last_color (chs "m", 1) =
      some (chs "000000") :=
  ⟨by decide, by decide, by decide⟩

/-- C10 (amended): a color argument failing six-hex-digit validation is
coerced to `000000` and then handled exactly like any color: it is
written iff `000000` differs from the last-sent color for the address;
every color `_set` emits to the bus is six uppercase hex digits, and
`_set` is total (it never raises). -/
theorem C10_set_coercion_amended (eng : EngineState) (mcu : Str) (bid : Nat)
    (color : Option Str) (hinv : color.bind _norm_color = none) :
    (_set eng mcu bid color).2 =
      (if eng.last_color (mcu, bid) = some (chs "000000") then none
       else some ((mcu, bid), chs "000000")) ∧
    (∀ w, (_set eng mcu bid color).2 = some w →
      w.2.length = 6 ∧ w.2.all isUpperHexChar = true) ∧
    ((_set eng mcu bid color).2 = none ↔
      eng.last_color (mcu, bid) = some (chs "000000")) := by
  have hc : (color.bind _norm_color).getD (chs "000000") = chs "000000" := by
    rw [hinv]
    rfl
  by_cases hb : eng.last_color (mcu, bid) = some (chs "000000")
  · have hsup := @_set_suppress eng mcu bid color
      (by rw [hc]; exact hb)
    rw [hsup]
    refine ⟨by simp [hb], ?_, by simp [hb]⟩
    intro w hw
    simp at hw
  · have e1 : _set eng mcu bid color =
        ({eng with last_color := fset (mcu, bid) (some (chs "000000")) eng.last_color},
          some ((mcu, bid), chs "000000")) := by
      simp only [_set, hc]
      rw [if_neg hb]
    rw [e1]
    refine ⟨by simp [hb], ?_, by simp [hb]⟩
    intro w hw
    simp at hw
    rw [← hw]
    constructor
    · show (chs "000000").length = 6
      decide
    · show (chs "000000").all isUpperHexChar = true
      decide

/-- Witness for C10: a fresh engine, invalid color `zzz` on `(m, 1)`. -/
theorem C10_witness :
    ((some (chs "zzz")).bind _norm_color = none) ∧
    ((_set wEng0 (chs "m") 1 (some (chs "zzz"))).2 =
      (if wEng0.last_color (chs "m", 1) = some (chs "000000") then none
       else some ((chs "m", 1), chs "000000")) ∧
    (∀ w, (_set wEng0 (chs "m") 1 (some (chs "zzz"))).2 = some w →
      w.2.length = 6 ∧ w.2.all isUpperHexChar = true) ∧
    ((_set wEng0 (chs "m") 1 (some (chs "zzz"))).2 = none ↔
      wEng0.last_color (chs "m", 1) = some (chs "000000"))) :=
  ⟨by decide, C10_set_coercion_amended wEng0 (chs "m") 1 (some (chs "zzz")) (by decide)⟩

/-! ### Claim C8 -/

/-- C8 counterexample: the line `PRESSED 300` invokes the press callback
with button id 300, outside the claimed 0-255 range (the parser performs
no range check). -/
theorem C8_counterexample :
    _process_rx_lines (chs "PRESSED 300\n") = (chs "", [(300, chs "PRESSED 300")]) ∧
    ¬((300 : Int) ≤ 255) :=
  ⟨by decide, by decide⟩

/-- C8 (amended): the press callback is invoked exactly for the
newline-terminated lines whose stripped content is two whitespace
tokens, the first case-insensitively equal to `pressed` and the second a
base-10 integer literal (optional sign, underscore digit grouping, any
magnitude — no 0-255 range check); the callback receives the stripped
line, and every other line is ignored without error. -/
theorem C8_press_grammar_amended (buf : Str) :
    ((_process_rx_lines buf).2 =
      ((splitNl buf).1.map cookLine).filterMap
        (fun line => (_parse_pressed_line line).map (fun bid => (bid, line)))) ∧
    (∀ line n, _parse_pressed_line line = some n ↔
      ∃ t1 t2, pySplit (pyStrip line) = [t1, t2] ∧ strLower t1 = chs "pressed" ∧
        pyInt10 t2 = some n) := by
  constructor
  · cases hsp : splitNl buf with
    | mk lines rem =>
        simp only [_process_rx_lines, hsp]
        rw [List.filterMap_map]
        rfl
  · intro line n
    constructor
    · intro h
      unfold _parse_pressed_line at h
      split at h
      · next t1 t2 heq =>
          split at h
          · next hlow => exact ⟨t1, t2, heq, hlow, h⟩
          · exact absurd h (by simp)
      · exact absurd h (by simp)
    · rintro ⟨t1, t2, hsp, hlow, hint⟩
      unfold _parse_pressed_line
      rw [hsp]
      simp [hlow, hint]

/-- Witness for C8: a press line and a log line in one buffer. -/
theorem C8_witness :
    ((_process_rx_lines (chs "PRESSED 3\r\nlog line\n")).2 =
      (((splitNl (chs "PRESSED 3\r\nlog line\n")).1.map cookLine).filterMap
        (fun line => (_parse_pressed_line line).map (fun bid => (bid, line))))) ∧
    (∀ line n, _parse_pressed_line line = some n ↔
      ∃ t1 t2, pySplit (pyStrip line) = [t1, t2] ∧ strLower t1 = chs "pressed" ∧
        pyInt10 t2 = some n) :=
  C8_press_grammar_amended (chs "PRESSED 3\r\nlog line\n")

/-! ### Claim C7 -/

/-- C7 counterexample: homing rule for axis `z`, nothing homed, all live
coordinates `-5.0`.  The z coordinate is negative and z is not homed, so
the claim demands the busy color; the code picks the FIRST negative
not-yet-homed axis (`x` here), so the rule yields the inactive color
instead. -/
theorem C7_counterexample :
    (homed_set (objGet (wStateH "" (-5) (-5) (-5)) (chs "toolhead"))).contains 'z' = false ∧
    below0 (pos_xyz (live_position (wStateH "" (-5) (-5) (-5)))).2.2 = true ∧
    _desired_color_for_button wCfgH wBtnH (fun _ => none) (wStateH "" (-5) (-5) (-5)) =
      some (_inactive_col wCfgH wBtnH) ∧
    _inactive_col wCfgH wBtnH = some (chs "222222") ∧
    _busy_col wBtnH = some (chs "FF0000") ∧
    (chs "222222" : Str) ≠ chs "FF0000" :=
  ⟨rfl, rfl, rfl, rfl, rfl, by decide⟩

/-- C7 (amended): for a single-axis homing rule on axis `a` with
pairwise-distinct active/busy/inactive colors, the desired color is the
active color iff `a` appears in the mirrored homed-axes report
(regardless of coordinate signs); the busy color iff `a` is not homed
AND `a` is the first axis in `x, y, z` order that is not yet homed and
whose live coordinate is below `-0.001`; and the inactive color in every
other case. -/
theorem C7_homing_axis_amended (cfg : HotkeyConfig) (b : ButtonConfig) (lut : Lut)
    (state : SMap) (ac : Char) (A I Bc : Option Str)
    (hst : strLower b.led_state = chs "homed")
    (haxis : strLower (pyStrip ((getAttr b.led_axis).getD [])) = [ac])
    (hac : ac = 'x' ∨ ac = 'y' ∨ ac = 'z')
    (hA : _active_col cfg b = A) (hI : _inactive_col cfg b = I) (hB : _busy_col b = Bc)
    (hAI : A ≠ I) (hAB : A ≠ Bc) (hIB : I ≠ Bc) :
    (_desired_color_for_button cfg b lut state = some A ↔
      (homed_set (objGet state (chs "toolhead"))).contains ac = true) ∧
    (_desired_color_for_button cfg b lut state = some Bc ↔
      ((homed_set (objGet state (chs "toolhead"))).contains ac = false ∧
        current_homing (homed_set (objGet state (chs "toolhead")))
          (pos_xyz (live_position state)).1 (pos_xyz (live_position state)).2.1
          (pos_xyz (live_position state)).2.2 = some ac)) ∧
    (((homed_set (objGet state (chs "toolhead"))).contains ac = false ∧
      current_homing (homed_set (objGet state (chs "toolhead")))
        (pos_xyz (live_position state)).1 (pos_xyz (live_position state)).2.1
        (pos_xyz (live_position state)).2.2 ≠ some ac) →
      _desired_color_for_button cfg b lut state = some I) := by
  have hspec : _desired_color_for_button cfg b lut state =
      some (_desired_homed cfg b state) := by
    unfold _desired_color_for_button
    dsimp only
    rw [hst, if_neg (by decide), if_neg (by decide), if_neg (by decide), if_pos rfl]
  have hmain : _desired_homed cfg b state =
      (if (homed_set (objGet state (chs "toolhead"))).contains ac then _active_col cfg b
       else if (current_homing (homed_set (objGet state (chs "toolhead")))
            (pos_xyz (live_position state)).1 (pos_xyz (live_position state)).2.1
            (pos_xyz (live_position state)).2.2 == some ac) then _busy_col b
       else _inactive_col cfg b) := by
    unfold _desired_homed
    dsimp only
    rw [haxis]
    rcases hac with h | h | h <;> subst h
    · rw [if_neg (show ¬((['x'] : Str) = [] ∨ (['x'] : Str) = chs "all" ∨
          (['x'] : Str) = chs "xyz") from by decide),
        if_pos (show (['x'] : Str) = chs "x" from by decide)]
    · rw [if_neg (show ¬((['y'] : Str) = [] ∨ (['y'] : Str) = chs "all" ∨
          (['y'] : Str) = chs "xyz") from by decide),
        if_neg (show ¬((['y'] : Str) = chs "x") from by decide),
        if_pos (show (['y'] : Str) = chs "y" from by decide)]
    · rw [if_neg (show ¬((['z'] : Str) = [] ∨ (['z'] : Str) = chs "all" ∨
          (['z'] : Str) = chs "xyz") from by decide),
        if_neg (show ¬((['z'] : Str) = chs "x") from by decide),
        if_neg (show ¬((['z'] : Str) = chs "y") from by decide),
        if_pos (show (['z'] : Str) = chs "z" from by decide)]
  rw [hspec, hmain, hA, hI, hB]
  by_cases h1 : (homed_set (objGet state (chs "toolhead"))).contains ac = true
  · rw [if_pos h1]
    refine ⟨⟨fun _ => h1, fun _ => rfl⟩, ?_, ?_⟩
    · constructor
      · intro h
        exact absurd (Option.some.inj h) hAB
      · rintro ⟨hf, _⟩
        rw [h1] at hf
        cases hf
    · rintro ⟨hf, _⟩
      rw [h1] at hf
      cases hf
  · have hf : (homed_set (objGet state (chs "toolhead"))).contains ac = false :=
      Bool.eq_false_iff.mpr h1
    rw [if_neg h1]
    by_cases h2 : (current_homing (homed_set (objGet state (chs "toolhead")))
        (pos_xyz (live_position state)).1 (pos_xyz (live_position state)).2.1
        (pos_xyz (live_position state)).2.2 == some ac) = true
    · have hcur : current_homing (homed_set (objGet state (chs "toolhead")))
          (pos_xyz (live_position state)).1 (pos_xyz (live_position state)).2.1
          (pos_xyz (live_position state)).2.2 = some ac := by
        exact beq_iff_eq.mp h2
      rw [if_pos h2]
      refine ⟨?_, ⟨fun _ => ⟨hf, hcur⟩, fun _ => rfl⟩, ?_⟩
      · constructor
        · intro h
          exact absurd (Option.some.inj h).symm hAB
        · intro hh
          rw [hh] at hf
          cases hf
      · rintro ⟨_, hne⟩
        exact absurd hcur hne
    · rw [if_neg h2]
      refine ⟨?_, ?_, fun _ => rfl⟩
      · constructor
        · intro h
          exact absurd (Option.some.inj h).symm hAI
        · intro hh
          rw [hh] at hf
          cases hf
      · constructor
        · intro h
          exact absurd (Option.some.inj h) hIB
        · rintro ⟨_, hcur⟩
          exact absurd (beq_iff_eq.mpr hcur) h2

/-- Witness for C7: the busy scenario — only z unhomed and moving. -/
theorem C7_witness :
    (strLower wBtnH.led_state = chs "homed" ∧
      strLower (pyStrip ((getAttr wBtnH.led_axis).getD [])) = ['z']) ∧
    ((_desired_color_for_button wCfgH wBtnH (fun _ => none) (wStateH "" 0 0 (-5)) =
        some (some (chs "111111")) ↔
      (homed_set (objGet (wStateH "" 0 0 (-5)) (chs "toolhead"))).contains 'z' = true) ∧
    (_desired_color_for_button wCfgH wBtnH (fun _ => none) (wStateH "" 0 0 (-5)) =
        some (some (chs "FF0000")) ↔
      ((homed_set (objGet (wStateH "" 0 0 (-5)) (chs "toolhead"))).contains 'z' = false ∧
        current_homing (homed_set (objGet (wStateH "" 0 0 (-5)) (chs "toolhead")))
          (pos_xyz (live_position (wStateH "" 0 0 (-5)))).1
          (pos_xyz (live_position (wStateH "" 0 0 (-5)))).2.1
          (pos_xyz (live_position (wStateH "" 0 0 (-5)))).2.2 = some 'z')) ∧
    (((homed_set (objGet (wStateH "" 0 0 (-5)) (chs "toolhead"))).contains 'z' = false ∧
      current_homing (homed_set (objGet (wStateH "" 0 0 (-5)) (chs "toolhead")))
        (pos_xyz (live_position (wStateH "" 0 0 (-5)))).1
        (pos_xyz (live_position (wStateH "" 0 0 (-5)))).2.1
        (pos_xyz (live_position (wStateH "" 0 0 (-5)))).2.2 ≠ some 'z') →
      _desired_color_for_button wCfgH wBtnH (fun _ => none) (wStateH "" 0 0 (-5)) =
        some (some (chs "222222")))) :=
  ⟨⟨rfl, rfl⟩,
    C7_homing_axis_amended wCfgH wBtnH (fun _ => none) (wStateH "" 0 0 (-5)) 'z'
      (some (chs "111111")) (some (chs "222222")) (some (chs "FF0000"))
      rfl rfl (Or.inr (Or.inr rfl)) rfl rfl rfl (by decide) (by decide) (by decide)⟩

/-! ### Claim C9 -/

theorem fold_subscribe_subset (lut : Lut) :
    ∀ (bs : List ButtonConfig) (acc : List (Str × List Str))
      (p : Str × List Str),
    p ∈ bs.foldl
        (fun sub b =>
          match rule_required lut b with
          | some q => setA q.1 q.2 sub
          | none => sub) acc →
    p ∈ acc ∨ ∃ b ∈ bs, rule_required lut b = some p := by
  intro bs
  induction bs with
  | nil => intro acc p hp; exact Or.inl hp
  | cons b t ih =>
      intro acc p hp
      simp only [List.foldl_cons] at hp
      rcases ih _ p hp with h1 | h1
      · cases hr : rule_required lut b with
        | none => rw [hr] at h1; exact Or.inl h1
        | some q =>
            rw [hr] at h1
            rcases mem_setA h1 with h2 | h2
            · exact Or.inr ⟨b, List.mem_cons_self b t, by rw [hr, h2]⟩
            · exact Or.inl h2
      · rcases h1 with ⟨b0, hb0, hr⟩
        exact Or.inr ⟨b0, List.mem_cons_of_mem _ hb0, hr⟩

/-- C9 counterexample: with no rules configured and `bed_mesh` in the
catalog, the builder still subscribes `bed_mesh.profile_name`, which is
neither a position/axis object (the claimed baseline) nor required by
any rule. -/
theorem C9_counterexample :
    build_subscribe_objects wCfgEmpty [chs "bed_mesh"] =
      [(chs "bed_mesh", [chs "profile_name"])] ∧
    (chs "bed_mesh") ∉ spec_baseline_objects ∧
    wCfgEmpty.buttons = [] :=
  ⟨by decide, by decide, rfl⟩

/-- C9 (amended): the subscription builder is a pure function —
deterministic by construction — and its output is contained in the fixed
baseline (which comprises the position/axis objects `toolhead` and
`gcode_move` AND the leveling/mesh objects `z_tilt`,
`quad_gantry_level`, `bed_mesh`) unioned with each non-static rule's
required fields. -/
theorem C9_subscribe_amended (cfg : HotkeyConfig) (objects : List Str) :
    build_subscribe_objects cfg objects = build_subscribe_objects cfg objects ∧
    ∀ p ∈ build_subscribe_objects cfg objects,
      p ∈ base_subscribe (_make_obj_lut objects) ∨
      ∃ b ∈ cfg.buttons, rule_required (_make_obj_lut objects) b = some p := by
  refine ⟨rfl, ?_⟩
  intro p hp
  unfold build_subscribe_objects at hp
  exact fold_subscribe_subset (_make_obj_lut objects) cfg.buttons
    (base_subscribe (_make_obj_lut objects)) p hp

/-- Witness for C9: the builder applied to the single-button test
configuration and a catalog containing `z_tilt`. -/
theorem C9_witness :
    build_subscribe_objects wCfg [chs "z_tilt"] = build_subscribe_objects wCfg [chs "z_tilt"] ∧
    ∀ p ∈ build_subscribe_objects wCfg [chs "z_tilt"],
      p ∈ base_subscribe (_make_obj_lut [chs "z_tilt"]) ∨
      ∃ b ∈ wCfg.buttons, rule_required (_make_obj_lut [chs "z_tilt"]) b = some p :=
  C9_subscribe_amended wCfg [chs "z_tilt"]

/-! ### Merge lemmas (for C5 and C4) -/

theorem updD_cons (p : Str × Val) (t : List (Str × Val)) (d : FieldMap) :
    updD (p :: t) d = updD t (fset p.1 (some p.2) d) := rfl

theorem updD_not_mem {f : Str} :
    ∀ (fs : List (Str × Val)) (d : FieldMap), f ∉ fs.map Prod.fst → updD fs d f = d f
  | [], _, _ => rfl
  | p :: t, d, h => by
      rw [updD_cons]
      have h1 : f ∉ t.map Prod.fst := fun hc => h (List.mem_cons_of_mem _ hc)
      have h2 : f ≠ p.1 := fun hc => h (by rw [List.map_cons, hc]; exact List.mem_cons_self _ _)
      rw [updD_not_mem t _ h1]
      exact fset_other _ _ h2

theorem lookupLast_cons (p : Str × Val) (t : List (Str × Val)) (f : Str) :
    lookupLast (p :: t) f =
      (match lookupLast t f with
       | some v => some v
       | none => if p.1 = f then some p.2 else none) := rfl

theorem updD_char {f : Str} :
    ∀ (fs : List (Str × Val)) (d : FieldMap),
    updD fs d f = (match lookupLast fs f with | some v => some v | none => d f)
  | [], _ => rfl
  | p :: t, d => by
      rw [updD_cons, updD_char t, lookupLast_cons]
      cases hl : lookupLast t f with
      | some v => simp
      | none =>
          dsimp only
          by_cases hp : p.1 = f
          · rw [if_pos hp]
            dsimp only
            rw [show fset p.1 (some p.2) d f = some p.2 from by rw [hp]; exact fset_same _ _ _]
          · rw [if_neg hp]
            dsimp only
            exact fset_other _ _ (Ne.symm hp)

theorem updD_idem (fs : List (Str × Val)) (g : FieldMap) :
    updD fs (updD fs g) = updD fs g := by
  funext f
  rw [updD_char fs]
  cases hl : lookupLast fs f with
  | some v => rw [updD_char fs, hl]
  | none => rfl

theorem mergeChanges_cons (p : Str × Val) (c : List (Str × Val)) (m : SMap) :
    mergeChanges m (p :: c) =
      mergeChanges
        (match p.2 with
         | Val.obj fs => fset p.1 (some (updD fs ((m p.1).getD emptyF))) m
         | _ => m) c := rfl

theorem mergeChanges_not_mem {obj : Str} :
    ∀ (c : List (Str × Val)) (m : SMap), obj ∉ c.map Prod.fst →
      mergeChanges m c obj = m obj
  | [], _, _ => rfl
  | p :: c, m, h => by
      rw [mergeChanges_cons]
      have h1 : obj ∉ c.map Prod.fst := fun hc => h (List.mem_cons_of_mem _ hc)
      have h2 : obj ≠ p.1 :=
        fun hc => h (by rw [List.map_cons, hc]; exact List.mem_cons_self _ _)
      rw [mergeChanges_not_mem c _ h1]
      rcases p with ⟨k, v⟩
      cases v
      case obj fs => exact fset_other _ _ h2
      all_goals rfl

theorem mergeChanges_mem :
    ∀ (c : List (Str × Val)) (m : SMap) {obj : Str} {fs : List (Str × Val)},
    (c.map Prod.fst).Nodup → (obj, Val.obj fs) ∈ c →
    mergeChanges m c obj = some (updD fs ((m obj).getD emptyF))
  | [], _, _, _, _, hmem => nomatch hmem
  | p :: c, m, obj, fs, hnd, hmem => by
      rw [List.map_cons] at hnd
      have hnd1 : p.1 ∉ c.map Prod.fst := (List.nodup_cons.mp hnd).1
      have hnd2 : (c.map Prod.fst).Nodup := (List.nodup_cons.mp hnd).2
      rw [mergeChanges_cons]
      rcases List.mem_cons.mp hmem with h1 | h1
      · cases h1.symm
        dsimp only at hnd1 ⊢
        rw [mergeChanges_not_mem c _ hnd1]
        exact fset_same _ _ _
      · have hobj_in : obj ∈ c.map Prod.fst :=
          List.mem_map.mpr ⟨(obj, Val.obj fs), h1, rfl⟩
        have hne : obj ≠ p.1 := fun he => hnd1 (he ▸ hobj_in)
        have hagree :
            (match p.2 with
             | Val.obj fs0 => fset p.1 (some (updD fs0 ((m p.1).getD emptyF))) m
             | _ => m) obj = m obj := by
          rcases p with ⟨k, v⟩
          cases v
          case obj fs0 => exact fset_other _ _ hne
          all_goals rfl
        rw [mergeChanges_mem c _ hnd2 h1, hagree]

theorem mergeChanges_mem_nondict :
    ∀ (c : List (Str × Val)) (m : SMap) {obj : Str} {v : Val},
    (c.map Prod.fst).Nodup → (obj, v) ∈ c → (∀ fs, v ≠ Val.obj fs) →
    mergeChanges m c obj = m obj
  | [], _, _, _, _, hmem, _ => nomatch hmem
  | p :: c, m, obj, v, hnd, hmem, hv => by
      rw [List.map_cons] at hnd
      have hnd1 : p.1 ∉ c.map Prod.fst := (List.nodup_cons.mp hnd).1
      have hnd2 : (c.map Prod.fst).Nodup := (List.nodup_cons.mp hnd).2
      rw [mergeChanges_cons]
      rcases List.mem_cons.mp hmem with h1 | h1
      · cases h1.symm
        dsimp only at hnd1 ⊢
        rw [mergeChanges_not_mem c _ hnd1]
        cases v
        case obj fs0 => exact absurd rfl (hv fs0)
        all_goals rfl
      · have hobj_in : obj ∈ c.map Prod.fst := List.mem_map.mpr ⟨(obj, v), h1, rfl⟩
        have hne : obj ≠ p.1 := fun he => hnd1 (he ▸ hobj_in)
        have hagree :
            (match p.2 with
             | Val.obj fs0 => fset p.1 (some (updD fs0 ((m p.1).getD emptyF))) m
             | _ => m) obj = m obj := by
          rcases p with ⟨k, w⟩
          cases w
          case obj fs0 => exact fset_other _ _ hne
          all_goals rfl
        rw [mergeChanges_mem_nondict c _ hnd2 h1 hv, hagree]

theorem mergeChanges_idem {c : List (Str × Val)} (hnd : (c.map Prod.fst).Nodup) (m : SMap) :
    mergeChanges (mergeChanges m c) c = mergeChanges m c := by
  funext obj
  by_cases hin : obj ∈ c.map Prod.fst
  · rcases List.mem_map.mp hin with ⟨p, hp, hfst⟩
    rcases p with ⟨k, v⟩
    dsimp only at hfst
    subst hfst
    by_cases hobj : ∃ fs, v = Val.obj fs
    · rcases hobj with ⟨fs, rfl⟩
      rw [mergeChanges_mem c _ hnd hp, mergeChanges_mem c m hnd hp]
      simp [updD_idem]
    · have hv : ∀ fs, v ≠ Val.obj fs := fun fs h => hobj ⟨fs, h⟩
      rw [mergeChanges_mem_nondict c _ hnd hp hv, mergeChanges_mem_nondict c m hnd hp hv]
  · rw [mergeChanges_not_mem c _ hin, mergeChanges_not_mem c m hin]

/-! ### Claim C5 -/

/-- C5: the merge of a state delta is non-destructive — an object not
named in the delta (or named with a non-dict value) keeps its previous
value, a field of a named object that is absent from the delta keeps its
previous value, and a field present in the delta takes its (last) value
from the delta. -/
theorem C5_merge_non_destructive (m : SMap) (c : List (Str × Val))
    (hnd : (c.map Prod.fst).Nodup) :
    (∀ obj, obj ∉ c.map Prod.fst → mergeChanges m c obj = m obj) ∧
    (∀ obj v, (obj, v) ∈ c → (∀ fs, v ≠ Val.obj fs) → mergeChanges m c obj = m obj) ∧
    (∀ obj fs f, (obj, Val.obj fs) ∈ c → f ∉ fs.map Prod.fst →
      (mergeChanges m c obj).getD emptyF f = (m obj).getD emptyF f) ∧
    (∀ obj fs f v, (obj, Val.obj fs) ∈ c → lookupLast fs f = some v →
      (mergeChanges m c obj).getD emptyF f = some v) := by
  refine ⟨fun obj h => mergeChanges_not_mem c m h,
    fun obj v hmem hv => mergeChanges_mem_nondict c m hnd hmem hv, ?_, ?_⟩
  · intro obj fs f hmem hf
    rw [mergeChanges_mem c m hnd hmem]
    simp only [Option.getD_some]
    exact updD_not_mem fs _ hf
  · intro obj fs f v hmem hlast
    rw [mergeChanges_mem c m hnd hmem]
    simp only [Option.getD_some]
    rw [updD_char fs, hlast]

/-- Witness for C5: the `z_tilt.applied` delta merged into the empty
mirror. -/
theorem C5_witness :
    ((wDelta.map Prod.fst).Nodup) ∧
    ((∀ obj, obj ∉ wDelta.map Prod.fst →
        mergeChanges (fun _ => none) wDelta obj = none) ∧
      (∀ obj v, (obj, v) ∈ wDelta → (∀ fs, v ≠ Val.obj fs) →
        mergeChanges (fun _ => none) wDelta obj = none) ∧
      (∀ obj fs f, (obj, Val.obj fs) ∈ wDelta → f ∉ fs.map Prod.fst →
        (mergeChanges (fun _ => none) wDelta obj).getD emptyF f =
          ((none : Option FieldMap)).getD emptyF f) ∧
      (∀ obj fs f v, (obj, Val.obj fs) ∈ wDelta → lookupLast fs f = some v →
        (mergeChanges (fun _ => none) wDelta obj).getD emptyF f = some v)) := by
  have hnd : (wDelta.map Prod.fst).Nodup := by
    simp [wDelta]
  exact ⟨hnd, C5_merge_non_destructive (fun _ => none) wDelta hnd⟩

/-! ### Write-origin and suppression lemmas (for C4) -/

theorem step_frame_key {cfg : HotkeyConfig} {seq : Nat} {lut : Lut} {stateC : SMap}
    {busyC : List (Key × ℚ)} {pendingC : Key → Option Nat} {now : ℚ}
    {acc : EngineState × List Write} {b : ButtonConfig} {k : Key}
    (hk : k ≠ (b.mcu, b.button_id)) :
    (apply_dynamic_step cfg seq lut stateC busyC pendingC now acc b).1.last_color k =
      acc.1.last_color k := by
  unfold apply_dynamic_step
  dsimp only
  split
  · rfl
  · split
    · rfl
    · split
      · rfl
      · cases hd : _desired_color_for_button cfg b lut stateC with
        | none => rfl
        | some col =>
            simp only [hd]
            cases hp : pendingC (b.mcu, b.button_id) with
            | none => exact _set_last_color_other hk
            | some p =>
                by_cases hlt : p < seq
                · simp only [if_pos hlt]
                  exact _set_last_color_other hk
                · simp only [if_neg hlt]
                  exact _set_last_color_other hk

theorem fold_frame_key {cfg : HotkeyConfig} {seq : Nat} {lut : Lut} {stateC : SMap}
    {busyC : List (Key × ℚ)} {pendingC : Key → Option Nat} {now : ℚ} {k : Key} :
    ∀ (bs : List ButtonConfig) (acc : EngineState × List Write),
    k ∉ bs.map (fun b => (b.mcu, b.button_id)) →
    (bs.foldl (apply_dynamic_step cfg seq lut stateC busyC pendingC now) acc).1.last_color k =
      acc.1.last_color k
  | [], _, _ => rfl
  | b :: t, acc, h => by
      have h1 : k ∉ t.map (fun b => (b.mcu, b.button_id)) :=
        fun hc => h (List.mem_cons_of_mem _ hc)
      have h2 : k ≠ (b.mcu, b.button_id) :=
        fun hc => h (by rw [List.map_cons, hc]; exact List.mem_cons_self _ _)
      simp only [List.foldl_cons]
      rw [fold_frame_key t _ h1]
      exact step_frame_key h2

theorem step_wrote {cfg : HotkeyConfig} {seq : Nat} {lut : Lut} {stateC : SMap}
    {busyC : List (Key × ℚ)} {pendingC : Key → Option Nat} {now : ℚ}
    {acc : EngineState × List Write} {b : ButtonConfig} {w : Write}
    (h : w ∈ (apply_dynamic_step cfg seq lut stateC busyC pendingC now acc b).2)
    (hnew : w ∉ acc.2) :
    ∃ col, _desired_color_for_button cfg b lut stateC = some col ∧
      (_set acc.1 b.mcu b.button_id col).2 = some w ∧
      (apply_dynamic_step cfg seq lut stateC busyC pendingC now acc b).1.last_color
        (b.mcu, b.button_id) = some w.2 := by
  unfold apply_dynamic_step at h ⊢
  dsimp only at h ⊢
  by_cases h1 : strLower b.led_state = [] ∨ strLower b.led_state = chs "static"
  · rw [if_pos h1] at h
    exact absurd h hnew
  · rw [if_neg h1] at h ⊢
    by_cases h2 : now < (lookupA (b.mcu, b.button_id) busyC).getD 0
    · rw [if_pos h2] at h
      exact absurd h hnew
    · rw [if_neg h2] at h ⊢
      cases hp : pendingC (b.mcu, b.button_id) with
      | none =>
          rw [hp] at h
          dsimp only at h ⊢
          rw [if_neg Bool.false_ne_true] at h ⊢
          cases hd : _desired_color_for_button cfg b lut stateC with
          | none =>
              rw [hd] at h
              dsimp only at h
              exact absurd h hnew
          | some col =>
              rw [hd] at h
              dsimp only at h ⊢
              rcases List.mem_append.mp h with hm | hm
              · exact absurd hm hnew
              · cases hset : (_set acc.1 b.mcu b.button_id col).2 with
                | none => rw [hset] at hm; simp at hm
                | some w0 =>
                    rw [hset] at hm
                    simp at hm
                    subst hm
                    exact ⟨col, rfl, hset, _set_write_last hset⟩
      | some p =>
          rw [hp] at h
          dsimp only at h ⊢
          by_cases h3 : seq ≤ p
          · rw [if_pos (decide_eq_true h3)] at h
            exact absurd h hnew
          · rw [if_neg (by simp [h3])] at h ⊢
            cases hd : _desired_color_for_button cfg b lut stateC with
            | none =>
                rw [hd] at h
                dsimp only at h
                exact absurd h hnew
            | some col =>
                rw [hd] at h
                dsimp only at h ⊢
                rcases List.mem_append.mp h with hm | hm
                · exact absurd hm hnew
                · cases hset : (_set acc.1 b.mcu b.button_id col).2 with
                  | none => rw [hset] at hm; simp at hm
                  | some w0 =>
                      rw [hset] at hm
                      simp at hm
                      subst hm
                      refine ⟨col, rfl, hset, ?_⟩
                      have hlast := _set_write_last hset
                      by_cases hlt : p < seq
                      · rw [if_pos hlt]
                        exact hlast
                      · rw [if_neg hlt]
                        exact hlast

theorem step_suppressed {cfg : HotkeyConfig} {seq : Nat} {lut : Lut} {stateC : SMap}
    {busyC : List (Key × ℚ)} {pendingC : Key → Option Nat} {now : ℚ}
    {acc : EngineState × List Write} {b : ButtonConfig}
    (hl : ∀ col, _desired_color_for_button cfg b lut stateC = some col →
      acc.1.last_color (b.mcu, b.button_id) =
        some ((col.bind _norm_color).getD (chs "000000"))) :
    (apply_dynamic_step cfg seq lut stateC busyC pendingC now acc b).2 = acc.2 ∧
    (apply_dynamic_step cfg seq lut stateC busyC pendingC now acc b).1.last_color
        (b.mcu, b.button_id) = acc.1.last_color (b.mcu, b.button_id) := by
  unfold apply_dynamic_step
  dsimp only
  split
  · exact ⟨rfl, rfl⟩
  · split
    · exact ⟨rfl, rfl⟩
    · split
      · exact ⟨rfl, rfl⟩
      · cases hd : _desired_color_for_button cfg b lut stateC with
        | none => exact ⟨rfl, rfl⟩
        | some col =>
            have hsup := _set_suppress (hl col hd)
            simp only [hd, hsup]
            cases hp : pendingC (b.mcu, b.button_id) with
            | none => exact ⟨List.append_nil _, rfl⟩
            | some p =>
                by_cases hlt : p < seq
                · simp only [if_pos hlt]
                  exact ⟨List.append_nil _, trivial⟩
                · simp only [if_neg hlt]
                  exact ⟨List.append_nil _, trivial⟩

theorem fold_wrote_unique {cfg : HotkeyConfig} {seq : Nat} {lut : Lut} {stateC : SMap}
    {busyC : List (Key × ℚ)} {pendingC : Key → Option Nat} {now : ℚ} {k : Key} :
    ∀ (bs : List ButtonConfig) (acc : EngineState × List Write),
    (bs.map (fun b => (b.mcu, b.button_id))).Nodup →
    (∀ w0 ∈ acc.2, w0.1 ≠ k) →
    ∀ w ∈ (bs.foldl (apply_dynamic_step cfg seq lut stateC busyC pendingC now) acc).2,
      w.1 = k →
    ∃ b ∈ bs, (b.mcu, b.button_id) = k ∧
      ∃ col, _desired_color_for_button cfg b lut stateC = some col ∧
        w.2 = (col.bind _norm_color).getD (chs "000000") ∧
        (bs.foldl (apply_dynamic_step cfg seq lut stateC busyC pendingC now)
          acc).1.last_color k = some w.2
  | [], acc, _, hacc, w, hw, hwk => absurd hwk (hacc w hw)
  | b :: t, acc, hnd, hacc, w, hw, hwk => by
      rw [List.map_cons] at hnd
      have hnd1 := (List.nodup_cons.mp hnd).1
      have hnd2 := (List.nodup_cons.mp hnd).2
      simp only [List.foldl_cons] at hw ⊢
      by_cases hk : (b.mcu, b.button_id) = k
      · have hknot : k ∉ t.map (fun b0 => (b0.mcu, b0.button_id)) := hk ▸ hnd1
        have hskip : ∀ (acc0 : EngineState × List Write) (b0 : ButtonConfig), b0 ∈ t →
            (b0.mcu, b0.button_id) = k →
            apply_dynamic_step cfg seq lut stateC busyC pendingC now acc0 b0 = acc0 :=
          fun acc0 b0 hb0 hbk =>
            absurd (List.mem_map.mpr ⟨b0, hb0, hbk⟩) hknot
        rcases fold_writes_skip t _ hskip w hw with hw1 | hw1
        · have hnotacc : w ∉ acc.2 := fun hcon => hacc w hcon hwk
          rcases step_wrote hw1 hnotacc with ⟨col, hcol, hset, hlast⟩
          refine ⟨b, List.mem_cons_self b t, hk, col, hcol,
            (_set_write_key hset).2, ?_⟩
          rw [fold_frame_key t _ hknot, ← hk]
          exact hlast
        · exact absurd hwk hw1
      · have hacc1 : ∀ w0 ∈ (apply_dynamic_step cfg seq lut stateC busyC pendingC now
            acc b).2, w0.1 ≠ k := by
          intro w0 hw0
          rcases step_writes_mem hw0 with h1 | h1
          · exact hacc w0 h1
          · rw [h1]
            exact hk
        rcases fold_wrote_unique t _ hnd2 hacc1 w hw hwk with ⟨b0, hb0, rest⟩
        exact ⟨b0, List.mem_cons_of_mem _ hb0, rest⟩

theorem fold_second_suppressed {cfg : HotkeyConfig} {seq : Nat} {lut : Lut} {stateC : SMap}
    {busyC : List (Key × ℚ)} {pendingC : Key → Option Nat} {now : ℚ} {k : Key} :
    ∀ (bs : List ButtonConfig) (acc : EngineState × List Write),
    (bs.map (fun b => (b.mcu, b.button_id))).Nodup →
    (∀ b ∈ bs, (b.mcu, b.button_id) = k →
      ∀ col, _desired_color_for_button cfg b lut stateC = some col →
        acc.1.last_color k = some ((col.bind _norm_color).getD (chs "000000"))) →
    ∀ w ∈ (bs.foldl (apply_dynamic_step cfg seq lut stateC busyC pendingC now) acc).2,
      w.1 = k → w ∈ acc.2
  | [], _, _, _, w, hw, _ => hw
  | b :: t, acc, hnd, H, w, hw, hwk => by
      rw [List.map_cons] at hnd
      have hnd1 := (List.nodup_cons.mp hnd).1
      have hnd2 := (List.nodup_cons.mp hnd).2
      simp only [List.foldl_cons] at hw
      by_cases hk : (b.mcu, b.button_id) = k
      · have hsup := @step_suppressed cfg seq lut stateC busyC pendingC now acc b
          (fun col hcol => by rw [hk]; exact H b (List.mem_cons_self b t) hk col hcol)
        have hknot : k ∉ t.map (fun b0 => (b0.mcu, b0.button_id)) := hk ▸ hnd1
        have H1 : ∀ b0 ∈ t, (b0.mcu, b0.button_id) = k →
            ∀ col, _desired_color_for_button cfg b0 lut stateC = some col →
            (apply_dynamic_step cfg seq lut stateC busyC pendingC now acc b).1.last_color k =
              some ((col.bind _norm_color).getD (chs "000000")) :=
          fun b0 hb0 hbk =>
            absurd (List.mem_map.mpr ⟨b0, hb0, hbk⟩) hknot
        have := fold_second_suppressed t _ hnd2 H1 w hw hwk
        rw [hsup.1] at this
        exact this
      · have H1 : ∀ b0 ∈ t, (b0.mcu, b0.button_id) = k →
            ∀ col, _desired_color_for_button cfg b0 lut stateC = some col →
            (apply_dynamic_step cfg seq lut stateC busyC pendingC now acc b).1.last_color k =
              some ((col.bind _norm_color).getD (chs "000000")) := by
          intro b0 hb0 hbk col hcol
          rw [step_frame_key (fun he => hk he.symm)]
          exact H b0 (List.mem_cons_of_mem _ hb0) hbk col hcol
        have := fold_second_suppressed t _ hnd2 H1 w hw hwk
        rcases step_writes_mem this with h1 | h1
        · exact h1
        · exact absurd (h1.symm.trans hwk) hk

theorem on_update_suppressed {cfg : HotkeyConfig} {eng2 : EngineState}
    {c : List (Str × Val)} {now : ℚ} {k : Key}
    (hkeys : (cfg.buttons.map (fun b => (b.mcu, b.button_id))).Nodup)
    (H : ∀ b ∈ cfg.buttons, (b.mcu, b.button_id) = k →
      ∀ col, _desired_color_for_button cfg b eng2.obj_lut (mergeChanges eng2.state c) =
        some col →
      eng2.last_color k = some ((col.bind _norm_color).getD (chs "000000"))) :
    ∀ w ∈ (on_update cfg eng2 c now).2, w.1 ≠ k := by
  intro w hw hwk
  unfold on_update apply_dynamic at hw
  dsimp only at hw
  have hmem := fold_second_suppressed cfg.buttons _ hkeys
    (fun b hb hbk col hcol => H b hb hbk col hcol) w hw hwk
  exact absurd hmem (List.not_mem_nil w)

/-! ### Claim C4 -/

/-- C4 counterexample: two configured rules share the address `(m, 1)`
with different inactive colors.  A `stateDelta` then writes the address
twice (each write differs from the immediately preceding one), and the
second identical `stateDelta` writes the very same address again — a
second write for the same address despite identical effective field
values. -/
theorem C4_counterexample :
    (on_update wCfgDup wEng0 wDelta 0).2 =
      [((chs "m", 1), chs "222222"), ((chs "m", 1), chs "444444")] ∧
    (on_update wCfgDup (on_update wCfgDup wEng0 wDelta 0).1 wDelta 0).2 =
      [((chs "m", 1), chs "222222"), ((chs "m", 1), chs "444444")] :=
  ⟨rfl, rfl⟩

/-- C4 (amended): a color equal to the last-sent color for an address is
never resent (`_set` suppresses it); and when every configured rule has
its own distinct `(mcu, button)` address, the second of two identical
`stateDelta` calls never writes an address the first one wrote. -/
theorem C4_write_suppression_amended (cfg : HotkeyConfig) (eng : EngineState)
    (c : List (Str × Val)) (t1 t2 : ℚ)
    (hkeys : (cfg.buttons.map (fun b => (b.mcu, b.button_id))).Nodup)
    (hc : (c.map Prod.fst).Nodup) :
    (∀ (e : EngineState) (mcu : Str) (bid : Nat) (color : Option Str),
      e.last_color (mcu, bid) = some ((color.bind _norm_color).getD (chs "000000")) →
      (_set e mcu bid color).2 = none) ∧
    (∀ w1 ∈ (on_update cfg eng c t1).2,
      ∀ w2 ∈ (on_update cfg (on_update cfg eng c t1).1 c t2).2, w2.1 ≠ w1.1) := by
  constructor
  · intro e mcu bid color h
    rw [_set_suppress h]
  · intro w1 hw1 w2 hw2
    have hstate : (on_update cfg eng c t1).1.state = mergeChanges eng.state c :=
      on_update_state cfg eng c t1
    have hlut : (on_update cfg eng c t1).1.obj_lut = eng.obj_lut :=
      on_update_obj_lut cfg eng c t1
    have hidem : mergeChanges (mergeChanges eng.state c) c = mergeChanges eng.state c :=
      mergeChanges_idem hc eng.state
    have hw1' := hw1
    unfold on_update apply_dynamic at hw1'
    dsimp only at hw1'
    rcases fold_wrote_unique cfg.buttons _ hkeys
        (fun w0 hw0 => absurd hw0 (List.not_mem_nil w0)) w1 hw1' rfl with
      ⟨b, hb, hbk, col1, hcol1, hval1, hlast1⟩
    have hlastE1 : (on_update cfg eng c t1).1.last_color w1.1 = some w1.2 := hlast1
    refine on_update_suppressed hkeys ?_ w2 hw2
    intro b0 hb0 hbk0 col hcol
    rw [hlut, hstate, hidem] at hcol
    have hbb : b0 = b :=
      List.inj_on_of_nodup_map hkeys hb0 hb (by rw [hbk0, hbk])
    rw [hbb, hcol1] at hcol
    have hcc : col = col1 := (Option.some.inj hcol).symm
    rw [hcc, ← hval1]
    exact hlastE1

/-- Witness for C4: the single-rule configuration and the `z_tilt` delta
issued twice. -/
theorem C4_witness :
    ((wCfg.buttons.map (fun b => (b.mcu, b.button_id))).Nodup ∧
      (wDelta.map Prod.fst).Nodup) ∧
    ((∀ (e : EngineState) (mcu : Str) (bid : Nat) (color : Option Str),
      e.last_color (mcu, bid) = some ((color.bind _norm_color).getD (chs "000000")) →
      (_set e mcu bid color).2 = none) ∧
    (∀ w1 ∈ (on_update wCfg wEng0 wDelta 0).2,
      ∀ w2 ∈ (on_update wCfg (on_update wCfg wEng0 wDelta 0).1 wDelta 0).2,
        w2.1 ≠ w1.1)) :=
  ⟨⟨by decide, by decide⟩,
    C4_write_suppression_amended wCfg wEng0 wDelta 0 0 (by decide) (by decide)⟩

/-! ### Pending-table lemmas (for C6) -/

theorem countRes_append (e1 e2 : List PendEvent) (h : Nat) :
    countRes (e1 ++ e2) h = countRes e1 h + countRes e2 h := by
  simp [countRes, List.filter_append]

theorem countRes_registered (hid h : Nat) : countRes [PendEvent.registered hid] h = 0 := by
  simp [countRes, List.filter, isResolution]

theorem countRes_single_res {e : PendEvent} {h : Nat} :
    countRes [e] h = if isResolution h e then 1 else 0 := by
  by_cases hr : isResolution h e <;> simp [countRes, List.filter, hr]

theorem countRes_cons (e : PendEvent) (t : List PendEvent) (h : Nat) :
    countRes (e :: t) h = (if isResolution h e then 1 else 0) + countRes t h := by
  by_cases hr : isResolution h e
  · simp [countRes, List.filter_cons, hr, Nat.add_comm]
  · simp [countRes, List.filter_cons, hr]

theorem lookupA_some_mem {κ α : Type} [DecidableEq κ] {k : κ} {v : α} :
    ∀ {l : List (κ × α)}, lookupA k l = some v → (k, v) ∈ l := by
  intro l
  induction l with
  | nil => intro h; simp [lookupA] at h
  | cons p t ih =>
      intro h
      unfold lookupA at h
      split at h
      · next hp =>
          have hv : p.2 = v := by simpa using h
          have hkv : (k, v) = p := Prod.ext (by rw [hp]) (by rw [hv])
          rw [hkv]
          exact List.mem_cons_self _ _
      · exact List.mem_cons_of_mem _ (ih h)

theorem setA_append_of_none {κ α : Type} [DecidableEq κ] {k : κ} (v : α) :
    ∀ {l : List (κ × α)}, lookupA k l = none → setA k v l = l ++ [(k, v)] := by
  intro l
  induction l with
  | nil => intro _; rfl
  | cons p t ih =>
      intro h
      unfold lookupA at h
      split at h
      · simp at h
      · next hp =>
          rw [show setA k v (p :: t) = p :: setA k v t from by simp [setA, hp], ih h]
          rfl

theorem mem_eraseA {rid : Nat} {tbl : List (Nat × Nat)} {p : Nat × Nat}
    (h : p ∈ eraseA rid tbl) : p ∈ tbl ∧ p.1 ≠ rid := by
  unfold eraseA at h
  have h1 := List.of_mem_filter h
  have h2 := List.mem_of_mem_filter h
  simp at h1
  exact ⟨h2, h1⟩

theorem eraseA_snd_nodup {rid : Nat} {tbl : List (Nat × Nat)}
    (h : (tbl.map Prod.snd).Nodup) : ((eraseA rid tbl).map Prod.snd).Nodup :=
  List.Nodup.sublist (List.Sublist.map Prod.snd (List.filter_sublist tbl)) h

theorem countRes_close_list (h : Nat) :
    ∀ (tbl : List (Nat × Nat)),
    countRes (tbl.map (fun p => PendEvent.resolvedClose p.2)) h =
      List.count h (tbl.map Prod.snd)
  | [] => rfl
  | p :: t => by
      rw [List.map_cons, countRes_cons, List.map_cons, List.count_cons,
        countRes_close_list h t]
      by_cases hp : p.2 = h
      · simp [isResolution, hp, Nat.add_comm]
      · simp [isResolution, hp, Ne.symm hp]

theorem pend_run_cons (tbl : List (Nat × Nat)) (op : PendOp) (rest : List PendOp) :
    pend_run tbl (op :: rest) =
      ((pend_run (pend_step tbl op).1 rest).1,
        (pend_step tbl op).2 ++ (pend_run (pend_step tbl op).1 rest).2) := rfl

theorem pend_run_bound :
    ∀ (ops : List PendOp) (tbl : List (Nat × Nat)) (used : List Nat),
    fresh_ops tbl used ops = true →
    (tbl.map Prod.snd).Nodup →
    (∀ hh ∈ tbl.map Prod.snd, hh ∈ used) →
    (∀ h, countRes (pend_run tbl ops).2 h ≤ 1) ∧
    (∀ h, h ∈ used → h ∉ tbl.map Prod.snd → countRes (pend_run tbl ops).2 h = 0) ∧
    (∀ h, PendEvent.overwritten h ∉ (pend_run tbl ops).2)
  | [], tbl, used, _, _, _ => by
      refine ⟨fun h => ?_, fun h _ _ => ?_, fun h => ?_⟩ <;> simp [pend_run, countRes]
  | op :: rest, tbl, used, hfresh, hnd, hsub => by
      cases op with
      | register rid hid =>
          unfold fresh_ops at hfresh
          simp only [Bool.and_eq_true] at hfresh
          obtain ⟨⟨hnone, hnotused⟩, hfresh1⟩ := hfresh
          have hnone' : lookupA rid tbl = none := by simpa using hnone
          have hnotused' : hid ∉ used := by simpa using hnotused
          have hstep : pend_step tbl (PendOp.register rid hid) =
              (setA rid hid tbl, [PendEvent.registered hid]) := by
            simp [pend_step, hnone']
          have hset : setA rid hid tbl = tbl ++ [(rid, hid)] := setA_append_of_none hid hnone'
          have hrun : pend_run tbl (PendOp.register rid hid :: rest) =
              ((pend_run (setA rid hid tbl) rest).1,
                [PendEvent.registered hid] ++ (pend_run (setA rid hid tbl) rest).2) := by
            rw [pend_run_cons, hstep]
          rw [hstep] at hfresh1
          have htblsub : ∀ hh ∈ (setA rid hid tbl).map Prod.snd, hh ∈ hid :: used := by
            intro hh hhh
            rw [hset, List.map_append] at hhh
            rcases List.mem_append.mp hhh with h1 | h1
            · exact List.mem_cons_of_mem _ (hsub hh h1)
            · simp at h1
              rw [h1]
              exact List.mem_cons_self _ _
          have hnd' : ((setA rid hid tbl).map Prod.snd).Nodup := by
            rw [hset, List.map_append]
            refine List.nodup_append.mpr ⟨hnd, by simp, ?_⟩
            intro a ha hb
            simp at hb
            rw [hb] at ha
            exact hnotused' (hsub hid ha)
          rcases pend_run_bound rest (setA rid hid tbl) (hid :: used) hfresh1 hnd' htblsub
            with ⟨ih1, ih2, ih3⟩
          refine ⟨?_, ?_, ?_⟩
          · intro h
            rw [hrun]
            dsimp only
            rw [countRes_append, countRes_registered]
            simpa using ih1 h
          · intro h hused hnot
            rw [hrun]
            dsimp only
            rw [countRes_append, countRes_registered]
            have hne : h ≠ hid := fun he => hnotused' (he ▸ hused)
            have hnot' : h ∉ (setA rid hid tbl).map Prod.snd := by
              rw [hset, List.map_append]
              intro hcon
              rcases List.mem_append.mp hcon with h1 | h1
              · exact hnot h1
              · simp at h1
                exact hne h1
            simpa using ih2 h (List.mem_cons_of_mem _ hused) hnot'
          · intro h
            rw [hrun]
            dsimp only
            intro hcon
            rcases List.mem_append.mp hcon with h1 | h1
            · simp at h1
            · exact ih3 h h1
      | response rid isErr =>
          unfold fresh_ops at hfresh
          cases hlk : lookupA rid tbl with
          | none =>
              have hstep : pend_step tbl (PendOp.response rid isErr) = (tbl, []) := by
                simp [pend_step, hlk]
              rw [hstep] at hfresh
              have hrun : pend_run tbl (PendOp.response rid isErr :: rest) =
                  ((pend_run tbl rest).1, [] ++ (pend_run tbl rest).2) := by
                rw [pend_run_cons, hstep]
              rcases pend_run_bound rest tbl used hfresh hnd hsub with ⟨ih1, ih2, ih3⟩
              refine ⟨fun h => ?_, fun h h1 h2 => ?_, fun h => ?_⟩ <;>
                rw [hrun] <;> dsimp only <;> rw [List.nil_append]
              · exact ih1 h
              · exact ih2 h h1 h2
              · exact ih3 h
          | some h0 =>
              have hstep : pend_step tbl (PendOp.response rid isErr) =
                  (eraseA rid tbl, [PendEvent.resolvedResponse h0 isErr]) := by
                simp [pend_step, hlk]
              rw [hstep] at hfresh
              have hrun : pend_run tbl (PendOp.response rid isErr :: rest) =
                  ((pend_run (eraseA rid tbl) rest).1,
                    [PendEvent.resolvedResponse h0 isErr] ++
                      (pend_run (eraseA rid tbl) rest).2) := by
                rw [pend_run_cons, hstep]
              have hnd' := @eraseA_snd_nodup rid _ hnd
              have hsub' : ∀ hh ∈ (eraseA rid tbl).map Prod.snd, hh ∈ used := by
                intro hh hhh
                rcases List.mem_map.mp hhh with ⟨p, hp, hps⟩
                exact hsub hh (hps ▸ List.mem_map.mpr ⟨p, (mem_eraseA hp).1, rfl⟩)
              have hmem0 : (rid, h0) ∈ tbl := lookupA_some_mem hlk
              have hh0tbl : h0 ∈ tbl.map Prod.snd := List.mem_map.mpr ⟨(rid, h0), hmem0, rfl⟩
              have hh0used : h0 ∈ used := hsub h0 hh0tbl
              have hh0not : h0 ∉ (eraseA rid tbl).map Prod.snd := by
                intro hcon
                rcases List.mem_map.mp hcon with ⟨p, hp, hps⟩
                rcases mem_eraseA hp with ⟨hptbl, hpk⟩
                have hpe : p = (rid, h0) :=
                  List.inj_on_of_nodup_map hnd hptbl hmem0 (by rw [hps])
                exact hpk (by rw [hpe])
              rcases pend_run_bound rest (eraseA rid tbl) used hfresh hnd' hsub'
                with ⟨ih1, ih2, ih3⟩
              refine ⟨?_, ?_, ?_⟩
              · intro h
                rw [hrun]
                dsimp only
                rw [countRes_append, countRes_single_res]
                by_cases hhh : h0 = h
                · rw [if_pos (by simp [isResolution, hhh])]
                  have : countRes (pend_run (eraseA rid tbl) rest).2 h = 0 :=
                    ih2 h (hhh ▸ hh0used) (hhh ▸ hh0not)
                  omega
                · rw [if_neg (by simp [isResolution, hhh])]
                  simpa using ih1 h
              · intro h hused hnot
                rw [hrun]
                dsimp only
                rw [countRes_append, countRes_single_res]
                have hne : h0 ≠ h := fun he => hnot (he ▸ hh0tbl)
                rw [if_neg (by simp [isResolution, hne])]
                have hnot' : h ∉ (eraseA rid tbl).map Prod.snd := by
                  intro hcon
                  rcases List.mem_map.mp hcon with ⟨p, hp, hps⟩
                  exact hnot (hps ▸ List.mem_map.mpr ⟨p, (mem_eraseA hp).1, rfl⟩)
                simpa using ih2 h hused hnot'
              · intro h
                rw [hrun]
                dsimp only
                intro hcon
                rcases List.mem_append.mp hcon with h1 | h1
                · simp at h1
                · exact ih3 h h1
      | timeoutPop rid =>
          unfold fresh_ops at hfresh
          cases hlk : lookupA rid tbl with
          | none =>
              have hstep : pend_step tbl (PendOp.timeoutPop rid) = (tbl, []) := by
                simp [pend_step, hlk]
              rw [hstep] at hfresh
              have hrun : pend_run tbl (PendOp.timeoutPop rid :: rest) =
                  ((pend_run tbl rest).1, [] ++ (pend_run tbl rest).2) := by
                rw [pend_run_cons, hstep]
              rcases pend_run_bound rest tbl used hfresh hnd hsub with ⟨ih1, ih2, ih3⟩
              refine ⟨fun h => ?_, fun h h1 h2 => ?_, fun h => ?_⟩ <;>
                rw [hrun] <;> dsimp only <;> rw [List.nil_append]
              · exact ih1 h
              · exact ih2 h h1 h2
              · exact ih3 h
          | some h0 =>
              have hstep : pend_step tbl (PendOp.timeoutPop rid) =
                  (eraseA rid tbl, [PendEvent.resolvedTimeout h0]) := by
                simp [pend_step, hlk]
              rw [hstep] at hfresh
              have hrun : pend_run tbl (PendOp.timeoutPop rid :: rest) =
                  ((pend_run (eraseA rid tbl) rest).1,
                    [PendEvent.resolvedTimeout h0] ++
                      (pend_run (eraseA rid tbl) rest).2) := by
                rw [pend_run_cons, hstep]
              have hnd' := @eraseA_snd_nodup rid _ hnd
              have hsub' : ∀ hh ∈ (eraseA rid tbl).map Prod.snd, hh ∈ used := by
                intro hh hhh
                rcases List.mem_map.mp hhh with ⟨p, hp, hps⟩
                exact hsub hh (hps ▸ List.mem_map.mpr ⟨p, (mem_eraseA hp).1, rfl⟩)
              have hmem0 : (rid, h0) ∈ tbl := lookupA_some_mem hlk
              have hh0tbl : h0 ∈ tbl.map Prod.snd := List.mem_map.mpr ⟨(rid, h0), hmem0, rfl⟩
              have hh0used : h0 ∈ used := hsub h0 hh0tbl
              have hh0not : h0 ∉ (eraseA rid tbl).map Prod.snd := by
                intro hcon
                rcases List.mem_map.mp hcon with ⟨p, hp, hps⟩
                rcases mem_eraseA hp with ⟨hptbl, hpk⟩
                have hpe : p = (rid, h0) :=
                  List.inj_on_of_nodup_map hnd hptbl hmem0 (by rw [hps])
                exact hpk (by rw [hpe])
              rcases pend_run_bound rest (eraseA rid tbl) used hfresh hnd' hsub'
                with ⟨ih1, ih2, ih3⟩
              refine ⟨?_, ?_, ?_⟩
              · intro h
                rw [hrun]
                dsimp only
                rw [countRes_append, countRes_single_res]
                by_cases hhh : h0 = h
                · rw [if_pos (by simp [isResolution, hhh])]
                  have : countRes (pend_run (eraseA rid tbl) rest).2 h = 0 :=
                    ih2 h (hhh ▸ hh0used) (hhh ▸ hh0not)
                  omega
                · rw [if_neg (by simp [isResolution, hhh])]
                  simpa using ih1 h
              · intro h hused hnot
                rw [hrun]
                dsimp only
                rw [countRes_append, countRes_single_res]
                have hne : h0 ≠ h := fun he => hnot (he ▸ hh0tbl)
                rw [if_neg (by simp [isResolution, hne])]
                have hnot' : h ∉ (eraseA rid tbl).map Prod.snd := by
                  intro hcon
                  rcases List.mem_map.mp hcon with ⟨p, hp, hps⟩
                  exact hnot (hps ▸ List.mem_map.mpr ⟨p, (mem_eraseA hp).1, rfl⟩)
                simpa using ih2 h hused hnot'
              · intro h
                rw [hrun]
                dsimp only
                intro hcon
                rcases List.mem_append.mp hcon with h1 | h1
                · simp at h1
                · exact ih3 h h1
      | close =>
          unfold fresh_ops at hfresh
          have hstep : pend_step tbl PendOp.close =
              ([], tbl.map (fun p => PendEvent.resolvedClose p.2)) := rfl
          rw [hstep] at hfresh
          have hrun : pend_run tbl (PendOp.close :: rest) =
              ((pend_run [] rest).1,
                tbl.map (fun p => PendEvent.resolvedClose p.2) ++ (pend_run [] rest).2) := by
            rw [pend_run_cons, hstep]
          rcases pend_run_bound rest [] used hfresh (by simp) (by simp) with ⟨ih1, ih2, ih3⟩
          refine ⟨?_, ?_, ?_⟩
          · intro h
            rw [hrun]
            dsimp only
            rw [countRes_append, countRes_close_list]
            by_cases hmem : h ∈ tbl.map Prod.snd
            · have hc1 : List.count h (tbl.map Prod.snd) ≤ 1 :=
                List.nodup_iff_count_le_one.mp hnd h
              have hc2 : countRes (pend_run [] rest).2 h = 0 :=
                ih2 h (hsub h hmem) (by simp)
              omega
            · rw [List.count_eq_zero_of_not_mem hmem]
              simpa using ih1 h
          · intro h hused hnot
            rw [hrun]
            dsimp only
            rw [countRes_append, countRes_close_list,
              List.count_eq_zero_of_not_mem hnot]
            simpa using ih2 h hused (by simp)
          · intro h
            rw [hrun]
            dsimp only
            intro hcon
            rcases List.mem_append.mp hcon with h1 | h1
            · rcases List.mem_map.mp h1 with ⟨p, _, hpe⟩
              exact PendEvent.noConfusion hpe
            · exact ih3 h h1

/-- C6 counterexample: request ids are drawn by `random.randint` with no
uniqueness enforcement, so nothing in `call` guarantees a fresh unique id.
When two concurrent `call`s draw the same id 5, the second registration
silently overwrites the first wait handle (handle 1): the run produces an
`overwritten 1` event and handle 1 is never resolved by response, timeout
or close — its `call` blocks for its full timeout even though the table
entry it registered is gone, refuting both the "fresh unique request id"
and the "removed exactly once, by whichever of response, timeout,
connection close resolves first" parts of the claim. -/
theorem C6_counterexample :
    pend_run [] [PendOp.register 5 1, PendOp.register 5 2] =
      ([(5, 2)],
       [PendEvent.registered 1, PendEvent.overwritten 1, PendEvent.registered 2]) ∧
    countRes
      [PendEvent.registered 1, PendEvent.overwritten 1, PendEvent.registered 2] 1 = 0 := by
  constructor
  · rfl
  · rfl

/-- C6 (amended): under the freshness discipline the claim assumes (every
registration uses a request id not currently pending and a brand-new wait
handle — which the `random.randint` draw does not itself enforce), every
wait handle is resolved at most once across response arrival, timeout
expiry and connection close, and no wait handle is ever silently
overwritten; moreover the tail of `call` raises `RemoteError` carrying
exactly the error payload whenever the response box holds one. -/
theorem C6_pending_table_amended (ops : List PendOp)
    (hfresh : fresh_ops [] [] ops = true) :
    (∀ h, countRes (pend_run [] ops).2 h ≤ 1) ∧
    (∀ h, PendEvent.overwritten h ∉ (pend_run [] ops).2) ∧
    (∀ (box : CallBox) (e : Val), box.err = some e →
      call_finish box = CallOutcome.remoteError e) := by
  rcases pend_run_bound ops [] [] hfresh (by simp) (by simp) with ⟨h1, _, h3⟩
  refine ⟨h1, h3, ?_⟩
  intro box e he
  unfold call_finish
  rw [he]

/-- Closed witness for C6 (amended) on a register/response run. -/
theorem C6_witness :
    fresh_ops [] [] [PendOp.register 5 1, PendOp.response 5 false] = true ∧
    (∀ h, countRes
      (pend_run [] [PendOp.register 5 1, PendOp.response 5 false]).2 h ≤ 1) ∧
    (∀ h, PendEvent.overwritten h ∉
      (pend_run [] [PendOp.register 5 1, PendOp.response 5 false]).2) ∧
    (∀ (box : CallBox) (e : Val), box.err = some e →
      call_finish box = CallOutcome.remoteError e) := by
  refine ⟨by decide, ?_⟩
  rcases C6_pending_table_amended [PendOp.register 5 1, PendOp.response 5 false]
    (by decide) with ⟨h1, h2, h3⟩
  exact ⟨h1, h2, h3⟩

end HK
